import Mathlib

/-!
Verification of the replay telemetry core (lap detection, arc-length
resampling, ideal-lap synthesis, playback clock, ghost matching).

The TypeScript source (`src/utils/telemetryParser.ts` / `lapAnalysis` and
`src/hooks/useTelemetry.ts`) is embedded shallowly:

* JavaScript numbers become `ℚ` (the algorithms use only field arithmetic,
  comparisons and `Math.floor`; every concrete input below keeps the
  floating-point runs exact).
* The one transcendental ingredient, `getDistanceFromLatLonInM`
  (Haversine, Earth radius 6371e3), is real-valued, so the development is
  parameterized over a distance function `dist : ℚ → ℚ → ℚ → ℚ → ℚ`.
  Theorems assume at most properties the Haversine formula enjoys
  (nonnegativity; exact zero on identical coordinate pairs), and concrete
  runs only evaluate the distance between frames with identical
  coordinates, where Haversine returns exactly `0` even in floating point.
* A JavaScript out-of-range array read (`undefined`) is modelled by
  `Option`/`getD`; each place where the source would instead throw on a
  shape the program never produces is noted at the definition.
-/

namespace Replay

/-- One telemetry sample (`TelemetryFrame` in `telemetryParser.ts`).
Only the fields the core algorithms read are carried: `time`, `latitude`,
`longitude`.  The remaining numeric channels (speed, rpm, throttle, …) are
interpolated and copied by exactly the same `lerp`/spread code paths as
`latitude`/`longitude` and no claim mentions them, so they are omitted. -/
structure TelemetryFrame where
  time : ℚ
  latitude : ℚ
  longitude : ℚ
deriving Repr, DecidableEq, Inhabited

/-- `LapData` from `lapAnalysis.ts` (the optional `sectors` field is never
written nor read by the core and is omitted). -/
structure LapData where
  lapIndex : ℤ
  frames : List TelemetryFrame
  totalDistance : ℚ
  lapTime : ℚ
  isComplete : Bool
deriving Repr, DecidableEq, Inhabited

/-- The type of `getDistanceFromLatLonInM (lat1, lon1, lat2, lon2)`.  The
source's Haversine distance is transcendental; the development is
parameterized over it. -/
abbrev DistFn := ℚ → ℚ → ℚ → ℚ → ℚ

/-- A concrete distance function used by closed runs below.  All concrete
inputs place every frame at identical coordinates, and on identical
coordinate pairs the source's Haversine returns exactly `0` (both deltas
are `0`, `a = 0`, `atan2 0 1 = 0`), which this function matches. -/
def zeroDist : DistFn := fun _ _ _ _ => 0

/-- JavaScript array read `xs[i]` for a natural index, with `undefined`
modelled as the `default` frame; every use below is in range. -/
def frameAt (fs : List TelemetryFrame) (i : ℕ) : TelemetryFrame :=
  (fs.get? i).getD default

/-- `xs[i].time` for a natural index (in range at every use). -/
def timeAt (fs : List TelemetryFrame) (i : ℕ) : ℚ :=
  ((fs.get? i).map (·.time)).getD 0

/-- JavaScript array read `xs[i]` for a possibly negative index
(`xs[-1]` is `undefined`, i.e. `none`). -/
def frameAtZ (fs : List TelemetryFrame) (i : ℤ) : Option TelemetryFrame :=
  if i < 0 then none else fs.get? i.toNat

/-! ## PlaybackClock (`useTelemetry.ts`)

The hook's refs (`currentIndex`, `playbackTimeRef`, `lastTimeRef`,
`isPlaying`, `isLooping`, `playbackSpeed`, `data`) are gathered into one
state record; `loop` (the per-animation-frame tick) and `seek` are
state transformers on it. -/

structure PlaybackState where
  data : List TelemetryFrame
  /-- `currentIndex`; an integer because `seek` stores its argument
  unconditionally, including out-of-range values. -/
  currentIndex : ℤ
  isPlaying : Bool
  isLooping : Bool
  playbackSpeed : ℚ
  /-- `playbackTimeRef.current` -/
  playbackTime : ℚ
  /-- `lastTimeRef.current` -/
  lastTime : ℚ
deriving Repr, DecidableEq

/-- The `while` loop in `loop`: advance `newIndex` forward while the next
frame's `time` does not exceed `targetTime`
(`if (data[newIndex+1].time > targetTime) break; newIndex++`).
When `newIndex + 1` is a negative index the source would throw reading
`.time` of `undefined`; the ticks of the claims keep the index in range,
and that branch returns the index unchanged here. -/
def advanceIndexAux (data : List TelemetryFrame) (targetTime : ℚ) :
    ℕ → ℤ → ℤ
  | 0, i => i
  | fuel + 1, i =>
    if i < (data.length : ℤ) - 1 then
      match frameAtZ data (i + 1) with
      | some f =>
        if targetTime < f.time then i
        else advanceIndexAux data targetTime fuel (i + 1)
      | none => i
    else i

/-- Entry point of the `while` loop: the fuel `(length − 1 − i)⁺` is an
upper bound on the number of iterations (each iteration increments `i` by
one and the loop exits as soon as `i < length − 1` fails), so the fuelled
recursion computes exactly the loop's result. -/
def advanceIndex (data : List TelemetryFrame) (targetTime : ℚ) (i : ℤ) : ℤ :=
  advanceIndexAux data targetTime ((data.length : ℤ) - 1 - i).toNat i

/-- One scheduling tick of `loop(time)` in `useTelemetry.ts`.  Mirrors the
source: an early return when not playing; otherwise
`deltaSeconds = (time − lastTime) * playbackSpeed / 1000` is accumulated
into the playback time, the index is advanced, and on reaching the end the
loop flag decides between wrapping to index `0` (playback time reset to
`data[0].time`; on empty data the source would throw and this model keeps
the accumulated time) and pausing.  `lastTimeRef` is then updated. -/
def loop (s : PlaybackState) (time : ℚ) : PlaybackState :=
  if s.isPlaying = false then s
  else
    let deltaSeconds := (time - s.lastTime) * s.playbackSpeed / 1000
    let targetTime := s.playbackTime + deltaSeconds
    let newIndex := advanceIndex s.data targetTime s.currentIndex
    let s1 : PlaybackState := { s with playbackTime := targetTime }
    let s2 : PlaybackState :=
      if (s.data.length : ℤ) - 1 ≤ newIndex then
        if s.isLooping then
          { s1 with currentIndex := 0,
                    playbackTime := match s.data.head? with
                                    | some f0 => f0.time
                                    | none => targetTime }
        else { s1 with currentIndex := newIndex, isPlaying := false }
      else { s1 with currentIndex := newIndex }
    { s2 with lastTime := time }

/-- `seek(index)` from `useTelemetry.ts`: stores `index` unconditionally
(no clamping), then re-syncs the playback-time accumulator to
`data[index].time` only when that read yields a frame. -/
def seek (s : PlaybackState) (index : ℤ) : PlaybackState :=
  let s1 : PlaybackState := { s with currentIndex := index }
  match frameAtZ s.data index with
  | some f => { s1 with playbackTime := f.time }
  | none => s1

/-- A concrete playback state over three frames, used to exhibit the
behavior of `seek` on out-of-range indices. -/
def c1state : PlaybackState :=
  { data := [⟨0, 0, 0⟩, ⟨1, 0, 0⟩, ⟨2, 0, 0⟩], currentIndex := 0,
    isPlaying := false, isLooping := false, playbackSpeed := 1,
    playbackTime := 7, lastTime := 0 }

/-- **C1, counterexample.**  The claim states that `seek(-5)` clamps the
playback index to `0`.  On a non-empty three-frame sequence, `seek(-5)`
leaves the playback index at `-5`, which is neither `0` nor inside
`[0, length-1]`. -/
theorem c1_seek_counterexample :
    (seek c1state (-5)).currentIndex = -5 ∧
    ¬ (seek c1state (-5)).currentIndex = 0 ∧
    ¬ (0 ≤ (seek c1state (-5)).currentIndex) := by
  decide

/-- **C1 (amended).**  `seek(i)` stores `i` as the playback index
unconditionally — it performs no clamping and raises no error.  When `i`
is in `[0, length-1]` the playback-time accumulator is re-synced to that
frame's `time`; when `i` is out of range the frame read yields no frame
and the accumulator is left unchanged.  (In the application the callers
of `seek` clamp before calling.) -/
theorem c1_seek_no_clamp (s : PlaybackState) (i : ℤ) :
    (seek s i).currentIndex = i ∧
    (frameAtZ s.data i = none → (seek s i).playbackTime = s.playbackTime) ∧
    (∀ f, frameAtZ s.data i = some f → (seek s i).playbackTime = f.time) := by
  unfold seek
  cases h : frameAtZ s.data i <;> simp [h]

/-- Witness for `c1_seek_no_clamp` at the concrete state `c1state` and
index `-5`. -/
theorem c1_seek_no_clamp_witness :
    (seek c1state (-5)).currentIndex = -5 ∧
    (seek c1state (-5)).playbackTime = c1state.playbackTime := by
  exact ⟨(c1_seek_no_clamp c1state (-5)).1,
         (c1_seek_no_clamp c1state (-5)).2.1 (by decide)⟩

/-- **C6.**  A playing tick whose index advance reaches the last frame:
with looping enabled the index wraps to `0`, the accumulated playback time
is reset to the first frame's `time`, and playback stays on; with looping
disabled the clock transitions to Paused. -/
theorem c6_loop_end_behavior (s : PlaybackState) (time : ℚ) (f0 : TelemetryFrame)
    (hplay : s.isPlaying = true)
    (hhead : s.data.head? = some f0)
    (hend : (s.data.length : ℤ) - 1 ≤
      advanceIndex s.data
        (s.playbackTime + (time - s.lastTime) * s.playbackSpeed / 1000)
        s.currentIndex) :
    (s.isLooping = true →
      (loop s time).currentIndex = 0 ∧
      (loop s time).playbackTime = f0.time ∧
      (loop s time).isPlaying = true) ∧
    (s.isLooping = false → (loop s time).isPlaying = false) := by
  unfold loop
  simp only [hplay]
  constructor
  · intro hloopb
    simp only [hloopb, if_pos hend, if_true, hhead, Bool.true_eq_false, if_false]
    exact ⟨trivial, trivial, trivial⟩
  · intro hloopb
    simp only [hloopb, if_pos hend, Bool.false_eq_true, if_false]
    rfl

/-- A concrete playing, looping state over two frames whose tick at wall
time `2` reaches the last frame. -/
def c6state : PlaybackState :=
  { data := [⟨0, 0, 0⟩, ⟨1, 0, 0⟩], currentIndex := 0,
    isPlaying := true, isLooping := true, playbackSpeed := 1000,
    playbackTime := 0, lastTime := 0 }

/-- Witness for `c6_loop_end_behavior`: on `c6state` the tick at wall time
`2` reaches the final frame and, looping being enabled, wraps to index `0`
with playback time reset to the first frame's `time`. -/
theorem c6_loop_end_behavior_witness :
    (loop c6state 2).currentIndex = 0 ∧
    (loop c6state 2).playbackTime = (0 : ℚ) ∧
    (loop c6state 2).isPlaying = true := by
  have h := (c6_loop_end_behavior c6state 2 ⟨0, 0, 0⟩ rfl rfl
    (by norm_num [c6state, advanceIndex, advanceIndexAux, frameAtZ])).1 rfl
  exact h

/-! ## GhostMatcher (`getGhostFrame` in `useTelemetry.ts`) -/

/-- `lap.frames[0].time`, with `0` standing in for the read the source
would crash on when a lap has no frames (the detector never produces
such a lap). -/
def lapFirstTime (l : LapData) : ℚ :=
  ((l.frames.head?).map (·.time)).getD 0

/-- `lap.frames[lap.frames.length - 1].time` (same convention as
`lapFirstTime` for the empty case). -/
def lapLastTime (l : LapData) : ℚ :=
  ((l.frames.getLast?).map (·.time)).getD 0

/-- The containment test of `laps.find(...)`:
`currentFrame.time >= l.frames[0].time && currentFrame.time <= l.frames[l.frames.length-1].time`. -/
def lapContains (cf : TelemetryFrame) (l : LapData) : Bool :=
  decide (lapFirstTime l ≤ cf.time ∧ cf.time ≤ lapLastTime l)

/-- The `while (low <= high)` binary search of `getGhostFrame`, fuelled:
`mid = ⌊(low+high)/2⌋`; a frame with `time < relativeTime` records `mid`
as `bestIdx` and searches right, otherwise the search moves left.  Each
iteration shrinks `high + 1 - low` by at least one, so any fuel at least
that span computes the loop's result; fuel `0` implies `low > high`,
the loop's exit condition. -/
def ghostSearchAux (frames : List TelemetryFrame) (relativeTime : ℚ) :
    ℕ → ℤ → ℤ → ℕ → ℕ
  | 0, _, _, bestIdx => bestIdx
  | fuel + 1, low, high, bestIdx =>
    if low ≤ high then
      let mid := (low + high) / 2
      if timeAt frames mid.toNat < relativeTime then
        ghostSearchAux frames relativeTime fuel (mid + 1) high mid.toNat
      else
        ghostSearchAux frames relativeTime fuel low (mid - 1) bestIdx
    else bestIdx

/-- The binary search over the ideal lap's frames:
`low = 0`, `high = frames.length - 1`, `bestIdx = 0`. -/
def ghostSearch (frames : List TelemetryFrame) (relativeTime : ℚ) : ℕ :=
  ghostSearchAux frames relativeTime frames.length 0 ((frames.length : ℤ) - 1) 0

/-- Tail of `getGhostFrame` once a containing lap is established:
`relativeTime = currentFrame.time − currentLap.frames[0].time`, then the
binary search, then the read `idealLap.frames[bestIdx]` (`undefined`,
i.e. `none`, when the ideal lap has no frames). -/
def ghostMainLookup (ideal : LapData) (currentLap : LapData)
    (cf : TelemetryFrame) : Option TelemetryFrame :=
  let relativeTime := cf.time - lapFirstTime currentLap
  ideal.frames.get? (ghostSearch ideal.frames relativeTime)

/-- The "rolling start" branch of `getGhostFrame` for a current frame
before the first lap: if the gap to the first lap's start is below the
ideal lap's total time, look up
`ghostTime = idealLap.lapTime − timeToStart` via
`frames.find(f => f.time >= frames[0].time + ghostTime)`, falling back to
the last ideal frame; otherwise `null`. -/
def ghostOutLap (ideal : LapData) (firstLap : LapData)
    (cf : TelemetryFrame) : Option TelemetryFrame :=
  let timeToStart := lapFirstTime firstLap - cf.time
  if timeToStart < ideal.lapTime then
    let ghostTime := ideal.lapTime - timeToStart
    match ideal.frames.find?
        (fun f => decide (((ideal.frames.head?.map (·.time)).getD 0) + ghostTime ≤ f.time)) with
    | some f => some f
    | none => ideal.frames.getLast?
  else none

/-- `getGhostFrame(currentFrame)` from `useTelemetry.ts` with its captured
state (`laps`, `idealLap`) passed explicitly. -/
def getGhostFrame (laps : List LapData) (idealLap : Option LapData)
    (currentFrame : Option TelemetryFrame) : Option TelemetryFrame :=
  match currentFrame, idealLap with
  | some cf, some ideal =>
    if laps.length = 0 then none
    else
      match laps.find? (lapContains cf) with
      | some currentLap => ghostMainLookup ideal currentLap cf
      | none =>
        let lastLap := (laps.getLast?).getD default
        if lapLastTime lastLap < cf.time then
          ghostMainLookup ideal lastLap cf
        else if cf.time < lapFirstTime ((laps.head?).getD default) then
          ghostOutLap ideal ((laps.head?).getD default) cf
        else none
  | _, _ => none

/-- Correctness of the fuelled binary search, by induction on the fuel.
With the frame times sorted, from a state whose invariants hold the
search returns the greatest index whose time is strictly below
`relativeTime`, or `0` when there is none. -/
theorem ghostSearchAux_spec (frames : List TelemetryFrame) (rel : ℚ)
    (hsorted : ∀ i j : ℕ, i ≤ j → j < frames.length →
      timeAt frames i ≤ timeAt frames j) :
    ∀ (fuel : ℕ) (low high : ℤ) (best : ℕ),
      0 ≤ low →
      high ≤ (frames.length : ℤ) - 1 →
      high + 1 - low ≤ (fuel : ℤ) →
      (best = 0 ∨ (best < frames.length ∧ timeAt frames best < rel)) →
      (∀ j : ℕ, j < frames.length → timeAt frames j < rel →
        ((low ≤ (j : ℤ) ∧ (j : ℤ) ≤ high) ∨ j ≤ best)) →
      ((best : ℤ) < low ∨ best = 0) →
      (ghostSearchAux frames rel fuel low high best = 0 ∨
        (ghostSearchAux frames rel fuel low high best < frames.length ∧
          timeAt frames (ghostSearchAux frames rel fuel low high best) < rel)) ∧
      (∀ j : ℕ, j < frames.length → timeAt frames j < rel →
        j ≤ ghostSearchAux frames rel fuel low high best) := by
  intro fuel
  induction fuel with
  | zero =>
    intro low high best _hlow _hhigh hfuel hbest hinv _hbl
    simp only [ghostSearchAux]
    refine ⟨hbest, fun j hj hjrel => ?_⟩
    rcases hinv j hj hjrel with ⟨h1, h2⟩ | h
    · omega
    · exact h
  | succ fuel ih =>
    intro low high best hlow hhigh hfuel hbest hinv hbl
    simp only [ghostSearchAux]
    by_cases hlh : low ≤ high
    · rw [if_pos hlh]
      by_cases hcmp : timeAt frames ((low + high) / 2).toNat < rel
      · rw [if_pos hcmp]
        refine ih ((low + high) / 2 + 1) high ((low + high) / 2).toNat
          (by omega) hhigh (by omega)
          (Or.inr ⟨by omega, hcmp⟩) ?_ (by omega)
        intro j hj hjrel
        rcases hinv j hj hjrel with ⟨h1, h2⟩ | h
        · by_cases hjm : (j : ℤ) ≤ (low + high) / 2
          · exact Or.inr (by omega)
          · exact Or.inl (by omega)
        · rcases hbl with hbl | hbl
          · exact Or.inr (by omega)
          · exact Or.inr (by omega)
      · rw [if_neg hcmp]
        refine ih low ((low + high) / 2 - 1) best hlow (by omega) (by omega)
          hbest ?_ hbl
        intro j hj hjrel
        rcases hinv j hj hjrel with ⟨h1, h2⟩ | h
        · by_cases hjm : (j : ℤ) ≤ (low + high) / 2 - 1
          · exact Or.inl ⟨h1, hjm⟩
          · exfalso
            have hmj : ((low + high) / 2).toNat ≤ j := by omega
            have := hsorted ((low + high) / 2).toNat j hmj hj
            have : timeAt frames ((low + high) / 2).toNat < rel :=
              lt_of_le_of_lt this hjrel
            exact hcmp this
        · exact Or.inr h
    · rw [if_neg hlh]
      refine ⟨hbest, fun j hj hjrel => ?_⟩
      rcases hinv j hj hjrel with ⟨h1, h2⟩ | h
      · omega
      · exact h

/-- Specification of `ghostSearch`: on time-sorted frames it returns the
greatest index whose frame time is strictly less than `relativeTime`
(`0` when no frame time is below it). -/
theorem ghostSearch_spec (frames : List TelemetryFrame) (rel : ℚ)
    (hsorted : ∀ i j : ℕ, i ≤ j → j < frames.length →
      timeAt frames i ≤ timeAt frames j) :
    (ghostSearch frames rel = 0 ∨
      (ghostSearch frames rel < frames.length ∧
        timeAt frames (ghostSearch frames rel) < rel)) ∧
    (∀ j : ℕ, j < frames.length → timeAt frames j < rel →
      j ≤ ghostSearch frames rel) := by
  unfold ghostSearch
  refine ghostSearchAux_spec frames rel hsorted frames.length 0
    ((frames.length : ℤ) - 1) 0 (by omega) (by omega) (by omega)
    (Or.inl rfl) (fun j hj _ => Or.inl (by omega)) (Or.inr rfl)

/-- **C3, counterexample.**  The claim states the ghost lookup returns the
latest ideal-lap frame whose time *does not exceed* `relativeTime`.  With
a current frame one second into a lap starting at `10` (`relativeTime =
1`) and ideal frames at times `0, 1, 2`, the ideal frame at time `1`
satisfies `time ≤ relativeTime`, yet the lookup returns the frame at time
`0`: the source's binary search records an index only when its time is
*strictly less* than `relativeTime`. -/
theorem c3_ghost_counterexample :
    getGhostFrame [⟨1, [⟨10, 0, 0⟩, ⟨20, 0, 0⟩], 0, 10, true⟩]
        (some ⟨-1, [⟨0, 0, 0⟩, ⟨1, 0, 0⟩, ⟨2, 0, 0⟩], 15, 2, true⟩)
        (some ⟨11, 0, 0⟩) = some ⟨0, 0, 0⟩ ∧
    (⟨1, 0, 0⟩ : TelemetryFrame) ∈
      [(⟨0, 0, 0⟩ : TelemetryFrame), ⟨1, 0, 0⟩, ⟨2, 0, 0⟩] ∧
    (⟨1, 0, 0⟩ : TelemetryFrame).time ≤
      (⟨11, 0, 0⟩ : TelemetryFrame).time -
        lapFirstTime ⟨1, [⟨10, 0, 0⟩, ⟨20, 0, 0⟩], 0, 10, true⟩ := by
  refine ⟨?_, by simp, by norm_num [lapFirstTime]⟩
  norm_num [getGhostFrame, lapContains, lapFirstTime, lapLastTime,
    ghostMainLookup, ghostSearch, ghostSearchAux, timeAt, List.find?]

/-- **C3 (amended).**  For a current frame contained in some lap (the
first lap the containment scan finds), the ghost lookup computes
`relativeTime = currentTime − that lap's first frame time` and returns the
ideal-lap frame at the greatest index whose time is *strictly less* than
`relativeTime`, falling back to index `0` when no ideal frame time is
below `relativeTime`; in particular, for a current frame exactly at the
lap's start (`relativeTime = 0`, ideal frame times nonnegative) it
returns the ideal lap's first frame. -/
theorem c3_ghost_relative_lookup (laps : List LapData) (ideal : LapData)
    (cf : TelemetryFrame) (currentLap : LapData)
    (hfind : laps.find? (lapContains cf) = some currentLap)
    (hsorted : ∀ i j : ℕ, i ≤ j → j < ideal.frames.length →
      timeAt ideal.frames i ≤ timeAt ideal.frames j) :
    ∃ b : ℕ,
      getGhostFrame laps (some ideal) (some cf) = ideal.frames.get? b ∧
      (b = 0 ∨ timeAt ideal.frames b < cf.time - lapFirstTime currentLap) ∧
      (∀ j : ℕ, j < ideal.frames.length →
        timeAt ideal.frames j < cf.time - lapFirstTime currentLap → j ≤ b) ∧
      ((∀ f ∈ ideal.frames, 0 ≤ f.time) →
        cf.time = lapFirstTime currentLap → b = 0) := by
  have hne : laps ≠ [] := by
    intro h
    subst h
    simp at hfind
  have hlen : ¬ (laps.length = 0) := by
    simpa [List.length_eq_zero] using hne
  refine ⟨ghostSearch ideal.frames (cf.time - lapFirstTime currentLap),
    ?_, ?_, ?_, ?_⟩
  · show getGhostFrame laps (some ideal) (some cf) = _
    simp only [getGhostFrame]
    rw [if_neg hlen, hfind]
    rfl
  · rcases (ghostSearch_spec ideal.frames
      (cf.time - lapFirstTime currentLap) hsorted).1 with h | ⟨_, h⟩
    · exact Or.inl h
    · exact Or.inr h
  · exact (ghostSearch_spec ideal.frames
      (cf.time - lapFirstTime currentLap) hsorted).2
  · intro hnn heq
    rcases (ghostSearch_spec ideal.frames
      (cf.time - lapFirstTime currentLap) hsorted).1 with h | ⟨hlt, h⟩
    · exact h
    · exfalso
      rcases hb : ideal.frames.get?
          (ghostSearch ideal.frames (cf.time - lapFirstTime currentLap)) with _ | f
      · rw [List.get?_eq_none] at hb
        omega
      · have hmem := List.get?_mem hb
        have h0 := hnn f hmem
        simp only [timeAt, hb, Option.map_some', Option.getD_some] at h
        rw [heq, sub_self] at h
        linarith

/-- Witness for `c3_ghost_relative_lookup`: a current frame exactly at the
start of the containing lap (time `10`), ideal frames at times `0, 1, 2`;
the lookup returns the ideal lap's first frame. -/
theorem c3_ghost_relative_lookup_witness :
    getGhostFrame [⟨1, [⟨10, 0, 0⟩, ⟨20, 0, 0⟩], 0, 10, true⟩]
        (some ⟨-1, [⟨0, 0, 0⟩, ⟨1, 0, 0⟩, ⟨2, 0, 0⟩], 15, 2, true⟩)
        (some ⟨10, 0, 0⟩) = some ⟨0, 0, 0⟩ := by
  obtain ⟨b, heq, _, _, hb0⟩ := c3_ghost_relative_lookup
    [⟨1, [⟨10, 0, 0⟩, ⟨20, 0, 0⟩], 0, 10, true⟩]
    ⟨-1, [⟨0, 0, 0⟩, ⟨1, 0, 0⟩, ⟨2, 0, 0⟩], 15, 2, true⟩
    ⟨10, 0, 0⟩ ⟨1, [⟨10, 0, 0⟩, ⟨20, 0, 0⟩], 0, 10, true⟩
    (by norm_num [List.find?, lapContains, lapFirstTime, lapLastTime])
    (by
      intro i j hij hj
      simp only [List.length_cons, List.length_nil] at hj
      interval_cases j <;> interval_cases i <;> norm_num [timeAt])
  have hb : b = 0 := by
    refine hb0 ?_ ?_
    · intro f hf
      simp only [List.mem_cons, List.not_mem_nil, or_false] at hf
      rcases hf with hf | hf | hf <;> subst hf <;> norm_num
    · norm_num [lapFirstTime]
  rw [hb] at heq
  simpa using heq

/-- **C7.**  For a current frame before the first lap's start (no lap
contains it and it is not after the last lap's end): when the gap
`timeToFirstLapStart` is smaller than the ideal lap's total time, the
lookup returns an ideal-lap frame — the first frame whose time is at
least `frames[0].time + (idealLapTime − timeToFirstLapStart)`, or the
last ideal frame when none reaches that time; otherwise it returns
none. -/
theorem c7_out_lap_ghost (laps : List LapData) (ideal : LapData)
    (cf : TelemetryFrame) (firstLap lastLap : LapData)
    (hhead : laps.head? = some firstLap)
    (hlast : laps.getLast? = some lastLap)
    (hfind : laps.find? (lapContains cf) = none)
    (hnotafter : ¬ (lapLastTime lastLap < cf.time))
    (hbefore : cf.time < lapFirstTime firstLap)
    (hne : ideal.frames ≠ []) :
    (lapFirstTime firstLap - cf.time < ideal.lapTime →
      ∃ f, getGhostFrame laps (some ideal) (some cf) = some f ∧
        f ∈ ideal.frames ∧
        (ideal.frames.find? (fun g =>
            decide (((ideal.frames.head?.map (·.time)).getD 0) +
              (ideal.lapTime - (lapFirstTime firstLap - cf.time)) ≤ g.time)) =
            some f ∨
          (ideal.frames.find? (fun g =>
            decide (((ideal.frames.head?.map (·.time)).getD 0) +
              (ideal.lapTime - (lapFirstTime firstLap - cf.time)) ≤ g.time)) =
            none ∧ ideal.frames.getLast? = some f))) ∧
    (ideal.lapTime ≤ lapFirstTime firstLap - cf.time →
      getGhostFrame laps (some ideal) (some cf) = none) := by
  have hnelaps : laps ≠ [] := by
    intro h
    subst h
    simp at hhead
  have hlen : ¬ (laps.length = 0) := by
    simpa [List.length_eq_zero] using hnelaps
  have hstep : getGhostFrame laps (some ideal) (some cf) =
      ghostOutLap ideal firstLap cf := by
    simp only [getGhostFrame]
    rw [if_neg hlen, hfind]
    simp only [hlast, Option.getD_some]
    rw [if_neg hnotafter]
    simp only [hhead, Option.getD_some]
    rw [if_pos hbefore]
  constructor
  · intro hgap
    rw [hstep]
    unfold ghostOutLap
    rw [if_pos hgap]
    rcases hfd : ideal.frames.find? (fun g =>
        decide (((ideal.frames.head?.map (·.time)).getD 0) +
          (ideal.lapTime - (lapFirstTime firstLap - cf.time)) ≤ g.time))
        with _ | f
    · refine ⟨(ideal.frames.getLast (by exact hne)), ?_, ?_, Or.inr ⟨hfd, ?_⟩⟩
      · simp [hfd, List.getLast?_eq_getLast _ hne]
      · exact List.getLast_mem hne
      · exact List.getLast?_eq_getLast _ hne
    · exact ⟨f, by simp [hfd], List.mem_of_find?_eq_some hfd, Or.inl hfd⟩
  · intro hgap
    rw [hstep]
    unfold ghostOutLap
    rw [if_neg (by linarith)]

/-- Witness for `c7_out_lap_ghost`: one lap starting at time `10`, ideal
lap of total time `2`, current frame at time `9` (gap `1 < 2`); the lookup
returns an ideal-lap frame. -/
theorem c7_out_lap_ghost_witness :
    ∃ f, getGhostFrame [⟨1, [⟨10, 0, 0⟩, ⟨20, 0, 0⟩], 0, 10, true⟩]
        (some ⟨-1, [⟨0, 0, 0⟩, ⟨1, 0, 0⟩, ⟨2, 0, 0⟩], 15, 2, true⟩)
        (some ⟨9, 0, 0⟩) = some f ∧
      f ∈ [(⟨0, 0, 0⟩ : TelemetryFrame), ⟨1, 0, 0⟩, ⟨2, 0, 0⟩] := by
  obtain ⟨f, heq, hmem, _⟩ :=
    (c7_out_lap_ghost [⟨1, [⟨10, 0, 0⟩, ⟨20, 0, 0⟩], 0, 10, true⟩]
      ⟨-1, [⟨0, 0, 0⟩, ⟨1, 0, 0⟩, ⟨2, 0, 0⟩], 15, 2, true⟩
      ⟨9, 0, 0⟩ ⟨1, [⟨10, 0, 0⟩, ⟨20, 0, 0⟩], 0, 10, true⟩
      ⟨1, [⟨10, 0, 0⟩, ⟨20, 0, 0⟩], 0, 10, true⟩
      rfl rfl
      (by norm_num [List.find?, lapContains, lapFirstTime, lapLastTime])
      (by norm_num [lapLastTime])
      (by norm_num [lapFirstTime])
      (by simp)).1
    (by norm_num [lapFirstTime])
  exact ⟨f, heq, by simpa using hmem⟩

/-! ## LapDetector, LapResampler, IdealLapSynthesizer (`lapAnalysis.ts`) -/

/-- The per-lap distance loop
(`for k: lapDist += getDistanceFromLatLonInM(frames[k], frames[k+1])`);
over `ℚ` the summation order is immaterial. -/
def lapDistance (dist : DistFn) : List TelemetryFrame → ℚ
  | f1 :: f2 :: rest =>
    dist f1.latitude f1.longitude f2.latitude f2.longitude +
      lapDistance dist (f2 :: rest)
  | _ => 0

/-- The cumulative entries of `resampleLap`'s `distMap` after the leading
`0`: `accumDist` after each consecutive-frame distance is added. -/
def distMapAux (dist : DistFn) (acc : ℚ) : List TelemetryFrame → List ℚ
  | f1 :: f2 :: rest =>
    (acc + dist f1.latitude f1.longitude f2.latitude f2.longitude) ::
      distMapAux dist (acc + dist f1.latitude f1.longitude f2.latitude f2.longitude)
        (f2 :: rest)
  | _ => []

/-- `resampleLap`'s `distMap`: `[0]` followed by the running cumulative
distance over consecutive frames. -/
def distMap (dist : DistFn) (frames : List TelemetryFrame) : List ℚ :=
  0 :: distMapAux dist 0 frames

/-- JavaScript read `xs[i]` on the distance map (in range at every use). -/
def qAt (xs : List ℚ) (i : ℕ) : ℚ :=
  (xs.get? i).getD 0

/-- The local `lerp` helper of `resampleLap`. -/
def lerp (a b t : ℚ) : ℚ :=
  a + (b - a) * t

/-- The bracket index of `resampleLap` at target distance `d`:
`idx = distMap.findIndex(val => val >= d)` with fallback
`distMap.length - 1` when no entry reaches `d`, bumped to `1` when `0`. -/
def interpIdx (dm : List ℚ) (d : ℚ) : ℕ :=
  let idx0 := match dm.findIdx? (fun v => decide (d ≤ v)) with
              | some k => k
              | none => dm.length - 1
  if idx0 = 0 then 1 else idx0

/-- `ratio = (d - d1) / (d2 - d1 || 1)` over the bracket of `d` (the
`|| 1` guard replaces a zero denominator by `1`, as in the source). -/
def interpRatio (dm : List ℚ) (d : ℚ) : ℚ :=
  (d - qAt dm (interpIdx dm d - 1)) /
    (if qAt dm (interpIdx dm d) - qAt dm (interpIdx dm d - 1) = 0 then 1
     else qAt dm (interpIdx dm d) - qAt dm (interpIdx dm d - 1))

/-- One interpolated frame of `resampleLap` at target distance `d`: each
continuous channel is interpolated linearly between the two bracketing
frames at `interpRatio`. -/
def interpFrame (dm : List ℚ) (frames : List TelemetryFrame) (d : ℚ) :
    TelemetryFrame :=
  { time := lerp (frameAt frames (interpIdx dm d - 1)).time
      (frameAt frames (interpIdx dm d)).time (interpRatio dm d),
    latitude := lerp (frameAt frames (interpIdx dm d - 1)).latitude
      (frameAt frames (interpIdx dm d)).latitude (interpRatio dm d),
    longitude := lerp (frameAt frames (interpIdx dm d - 1)).longitude
      (frameAt frames (interpIdx dm d)).longitude (interpRatio dm d) }

/-- The target-distance grid of `resampleLap`'s
`for (d = 0; d <= totalDist; d += stepMeters)`: for a positive step the
loop visits exactly `k * stepMeters` for `0 ≤ k ≤ ⌊totalDist/stepMeters⌋`
(the accumulation is exact in `ℚ`, and in the program's floating point as
well for the only step used, `5`); a nonpositive step would make the
source loop forever and is never used. -/
def gridPoints (stepMeters totalDist : ℚ) : List ℚ :=
  if 0 < stepMeters then
    if 0 ≤ totalDist then
      (List.range ((⌊totalDist / stepMeters⌋).toNat + 1)).map
        (fun k : ℕ => (k : ℚ) * stepMeters)
    else []
  else []

/-- `resampleLap(lap, stepMeters)`: degenerate laps (fewer than `2`
frames) are returned unchanged; otherwise the frames are replaced by the
interpolated frames on the arc-length grid (the `totalDistance` field is
kept, as in the source). -/
def resampleLap (dist : DistFn) (lap : LapData) (stepMeters : ℚ) : LapData :=
  if lap.frames.length < 2 then lap
  else
    { lap with frames := ((gridPoints stepMeters lap.totalDistance).map
        (interpFrame (distMap dist lap.frames) lap.frames)) }

/-- A lap's elapsed time across one micro-sector in `calculateIdealLap`:
`frames[min(endIdx, length-1)].time - frames[startIdx].time`. -/
def sectorTimeOf (lap : LapData) (startIdx endIdx : ℕ) : ℚ :=
  timeAt lap.frames (min endIdx (lap.frames.length - 1)) -
    timeAt lap.frames startIdx

/-- The best-lap-for-sector loop of `calculateIdealLap`:
`bestSectorTime` starts at `Infinity` (`none` here, so the first lap
always records) and a lap replaces the best only when its sector time is
strictly smaller; the result carries `(bestSectorTime, bestLapIdx)`. -/
def bestSector (resampledLaps : List LapData) (startIdx endIdx : ℕ) :
    Option (ℚ × ℕ) :=
  resampledLaps.enum.foldl
    (fun best li =>
      match best with
      | none => some (sectorTimeOf li.2 startIdx endIdx, li.1)
      | some (b, bi) =>
        if sectorTimeOf li.2 startIdx endIdx < b then
          some (sectorTimeOf li.2 startIdx endIdx, li.1)
        else some (b, bi))
    none

/-- One iteration of `calculateIdealLap`'s stitching loop: pick the best
lap for sector `s`, slice its frames
(`slice(startIdx, min(endIdx, length))`), rewrite each time to
`currentIdealTime + (time - sectorStartTime)`, append, and advance
`currentIdealTime` by the best sector time.  The `none` branch of
`bestSector` only arises for an empty lap list, which the caller
excludes. -/
def stitchSector (resampledLaps : List LapData) (indicesPerSector : ℕ)
    (acc : List TelemetryFrame × ℚ) (s : ℕ) : List TelemetryFrame × ℚ :=
  let startIdx := s * indicesPerSector
  let endIdx := startIdx + indicesPerSector
  match bestSector resampledLaps startIdx endIdx with
  | none => acc
  | some (bestTime, bestIdx) =>
    let bestLap := (resampledLaps.get? bestIdx).getD default
    let sectorFrames :=
      (bestLap.frames.drop startIdx).take
        (min endIdx bestLap.frames.length - startIdx)
    let sectorStartTime := ((sectorFrames.head?).map (·.time)).getD 0
    (acc.1 ++ sectorFrames.map
        (fun f => { f with time := acc.2 + (f.time - sectorStartTime) }),
     acc.2 + bestTime)

/-- `calculateIdealLap(laps, microSectorSize)`: `none` for fewer than two
complete laps; otherwise all complete laps are resampled at step `5`,
truncated (through `minLen`) to the shortest sample count, partitioned
into micro-sectors of `⌊microSectorSize / 5⌋` samples, and stitched.
`Math.min(...lengths)` over the (nonempty) lengths is `minimum?`; the
`ℕ` division `minLen / indicesPerSector` matches `Math.floor` for the
positive sector sizes the program uses (only `50`). -/
def calculateIdealLap (dist : DistFn) (laps : List LapData)
    (microSectorSize : ℚ) : Option LapData :=
  if (laps.filter (·.isComplete)).length < 2 then none
  else
    let resampledLaps :=
      (laps.filter (·.isComplete)).map (fun l => resampleLap dist l 5)
    let minLen := ((resampledLaps.map (·.frames.length)).min?).getD 0
    let indicesPerSector := (⌊microSectorSize / 5⌋).toNat
    let numSectors := minLen / indicesPerSector
    let build := (List.range numSectors).foldl
      (stitchSector resampledLaps indicesPerSector) ([], 0)
    some { lapIndex := -1, frames := build.1,
           totalDistance := (build.1.length : ℚ) * 5,
           lapTime := build.2, isComplete := true }

/-- The mutable locals of `findLapsForPos`'s frame walk. -/
structure DetState where
  laps : List LapData
  currentLap : List TelemetryFrame
  lastDist : Option ℚ
  lapStartTime : ℚ
  prevTime : ℚ
  onLap : Bool
deriving Repr, DecidableEq

/-- One iteration of `findLapsForPos`'s frame loop.  `lastDist` starts as
`Infinity`, modelled as `none` (the crossing test `lastDist < 20` is then
false, exactly as with `Infinity`).  `prevTime` carries
`frames[i-1].time`, read only at a crossing, which requires a previous
frame under the threshold. -/
def detStep (dist : DistFn) (posLat posLon : ℚ) (st : DetState)
    (frame : TelemetryFrame) : DetState :=
  let d := dist frame.latitude frame.longitude posLat posLon
  let st1 :=
    if d < 20 then
      match st.lastDist with
      | none => st
      | some ld =>
        if ld < d ∧ ld < 20 then
          if 30 < frame.time - st.lapStartTime then
            let st2 :=
              if st.onLap then
                { st with laps := st.laps ++
                    [{ lapIndex := (st.laps.length : ℤ) + 1,
                       lapTime := frame.time - st.lapStartTime,
                       frames := st.currentLap,
                       totalDistance := lapDistance dist st.currentLap,
                       isComplete := true }] }
              else st
            { st2 with onLap := true, currentLap := [],
                       lapStartTime := st.prevTime }
          else st
        else st
    else st
  let st3 :=
    if st1.onLap then { st1 with currentLap := st1.currentLap ++ [frame] }
    else st1
  { st3 with lastDist := some d, prevTime := frame.time }

/-- `findLapsForPos(startPos)`: walk all frames with `detStep`, then close
a trailing partial lap when one is open and non-empty. -/
def findLapsForPos (dist : DistFn) (frames : List TelemetryFrame)
    (posLat posLon : ℚ) : List LapData :=
  let st0 : DetState :=
    { laps := [], currentLap := [], lastDist := none,
      lapStartTime := ((frames.head?.map (·.time)).getD 0),
      prevTime := 0, onLap := false }
  let stF := frames.foldl (detStep dist posLat posLon) st0
  if stF.onLap ∧ stF.currentLap ≠ [] then
    stF.laps ++
      [{ lapIndex := (stF.laps.length : ℤ) + 1,
         lapTime := ((stF.currentLap.getLast?.map (·.time)).getD 0) -
           stF.lapStartTime,
         frames := stF.currentLap,
         totalDistance := lapDistance dist stF.currentLap,
         isComplete := false }]
  else stF.laps

/-- The number of complete laps in a candidate's lap list. -/
def completeCount (laps : List LapData) : ℕ :=
  (laps.filter (·.isComplete)).length

/-- The candidate comparison of `detectLaps`: replace the best on strictly
more complete laps, or on equal complete laps and strictly more total
laps. -/
def pickBetter (best laps : List LapData) : List LapData :=
  if completeCount best < completeCount laps then laps
  else if completeCount laps = completeCount best ∧
      best.length < laps.length then laps
  else best

/-- The lap list detected from the candidate start position at frame
index `i`. -/
def candidateLaps (dist : DistFn) (frames : List TelemetryFrame) (i : ℕ) :
    List LapData :=
  findLapsForPos dist frames (frameAt frames i).latitude
    (frameAt frames i).longitude

/-- The candidate frame indices of `detectLaps`'s
`for (i = 0; i < searchLimit; i += step)` with
`searchLimit = min(length, 10000)` and `step = 300`. -/
def candidateIdxs (frames : List TelemetryFrame) : List ℕ :=
  (List.range ((min frames.length 10000 + 299) / 300)).map (· * 300)

/-- `detectLaps(frames)`: empty below `100` frames; otherwise the
candidate fold with `pickBetter`, starting from the empty lap list. -/
def detectLaps (dist : DistFn) (frames : List TelemetryFrame) :
    List LapData :=
  if frames.length < 100 then []
  else
    (candidateIdxs frames).foldl
      (fun best i => pickBetter best (candidateLaps dist frames i)) []

/-- **C8.**  With fewer than `100` frames, `detectLaps` returns the empty
lap list (and, being a total function of its input, raises no
exception). -/
theorem c8_detectLaps_insufficient (dist : DistFn)
    (frames : List TelemetryFrame) (h : frames.length < 100) :
    detectLaps dist frames = [] := by
  unfold detectLaps
  rw [if_pos h]

/-- Witness for `c8_detectLaps_insufficient`: a concrete 3-frame input. -/
theorem c8_detectLaps_insufficient_witness :
    detectLaps zeroDist [⟨0, 0, 0⟩, ⟨1, 0, 0⟩, ⟨2, 0, 0⟩] = [] :=
  c8_detectLaps_insufficient zeroDist _ (by norm_num)

/-- **C9.**  With fewer than two laps flagged `isComplete = true` —
regardless of how many partial laps are present — `calculateIdealLap`
returns `none`. -/
theorem c9_ideal_needs_two_complete (dist : DistFn) (laps : List LapData)
    (microSectorSize : ℚ)
    (h : (laps.filter (·.isComplete)).length < 2) :
    calculateIdealLap dist laps microSectorSize = none := by
  unfold calculateIdealLap
  rw [if_pos h]

/-- Witness for `c9_ideal_needs_two_complete`: one complete lap plus two
partial laps. -/
theorem c9_ideal_needs_two_complete_witness :
    calculateIdealLap zeroDist
      [⟨1, [], 0, 40, true⟩, ⟨2, [], 0, 41, false⟩, ⟨3, [], 0, 5, false⟩]
      50 = none :=
  c9_ideal_needs_two_complete zeroDist _ 50 (by simp)

/-- The candidate score of `detectLaps`, ordered lexicographically:
number of complete laps first, total number of laps second. -/
def lexScore (laps : List LapData) : ℕ ×ₗ ℕ :=
  toLex (completeCount laps, laps.length)

/-- `pickBetter` replaces the best exactly when the challenger's score is
lexicographically strictly greater. -/
theorem pickBetter_eq (best laps : List LapData) :
    pickBetter best laps =
      if lexScore best < lexScore laps then laps else best := by
  unfold pickBetter
  by_cases h1 : completeCount best < completeCount laps
  · rw [if_pos h1,
      if_pos (show lexScore best < lexScore laps by
        unfold lexScore
        rw [Prod.Lex.lt_iff]
        exact Or.inl h1)]
  · rw [if_neg h1]
    by_cases h2 : completeCount laps = completeCount best ∧
        best.length < laps.length
    · rw [if_pos h2,
        if_pos (show lexScore best < lexScore laps by
          unfold lexScore
          rw [Prod.Lex.lt_iff]
          exact Or.inr ⟨h2.1.symm, h2.2⟩)]
    · rw [if_neg h2,
        if_neg (show ¬ lexScore best < lexScore laps by
          unfold lexScore
          rw [Prod.Lex.lt_iff]
          rintro (h | ⟨hEq, hLt⟩)
          · exact h1 h
          · exact h2 ⟨hEq.symm, hLt⟩)]

/-- The candidate fold of `detectLaps` returns the first
lexicographically-maximal element (or the initial best when nothing beats
it): the result's score dominates the initial best and every candidate,
and when the initial best was replaced the candidate list splits around
the result with every earlier candidate scoring strictly below it. -/
theorem foldl_pickBetter_spec (cs : List (List LapData)) :
    ∀ b : List LapData,
      lexScore b ≤ lexScore (cs.foldl pickBetter b) ∧
      (∀ c ∈ cs, lexScore c ≤ lexScore (cs.foldl pickBetter b)) ∧
      (cs.foldl pickBetter b = b ∨
        ∃ l1 l2, cs = l1 ++ cs.foldl pickBetter b :: l2 ∧
          lexScore b < lexScore (cs.foldl pickBetter b) ∧
          ∀ c ∈ l1, lexScore c < lexScore (cs.foldl pickBetter b)) := by
  induction cs with
  | nil =>
    intro b
    exact ⟨le_refl _, fun c hc => absurd hc (List.not_mem_nil c), Or.inl rfl⟩
  | cons c cs ih =>
    intro b
    rw [List.foldl_cons, pickBetter_eq]
    by_cases hlt : lexScore b < lexScore c
    · rw [if_pos hlt]
      obtain ⟨h1, h2, h3⟩ := ih c
      refine ⟨le_of_lt (lt_of_lt_of_le hlt h1), ?_, ?_⟩
      · intro x hx
        rcases List.mem_cons.mp hx with hx | hx
        · exact hx ▸ h1
        · exact h2 x hx
      · rcases h3 with h3 | ⟨l1, l2, hsplit, hblt, hl1⟩
        · exact Or.inr ⟨[], cs, by simp [h3], by rw [h3]; exact hlt, by simp⟩
        · refine Or.inr ⟨c :: l1, l2, by rw [List.cons_append, ← hsplit],
            lt_of_lt_of_le hlt h1, ?_⟩
          intro x hx
          rcases List.mem_cons.mp hx with hx | hx
          · exact hx ▸ hblt
          · exact hl1 x hx
    · rw [if_neg hlt]
      obtain ⟨h1, h2, h3⟩ := ih b
      refine ⟨h1, ?_, ?_⟩
      · intro x hx
        rcases List.mem_cons.mp hx with hx | hx
        · exact hx ▸ le_trans (le_of_not_lt hlt) h1
        · exact h2 x hx
      · rcases h3 with h3 | ⟨l1, l2, hsplit, hblt, hl1⟩
        · exact Or.inl h3
        · refine Or.inr ⟨c :: l1, l2, by rw [List.cons_append, ← hsplit],
            hblt, ?_⟩
          intro x hx
          rcases List.mem_cons.mp hx with hx | hx
          · exact hx ▸ lt_of_le_of_lt (le_of_not_lt hlt) hblt
          · exact hl1 x hx

/-- A lap list whose lexicographic score is at most the empty list's is
itself empty (its total lap count is `0`). -/
theorem eq_nil_of_lexScore_le_nil (c : List LapData)
    (hc : lexScore c ≤ lexScore []) : c = [] := by
  unfold lexScore at hc
  rw [Prod.Lex.le_iff] at hc
  rcases hc with hc | ⟨_, hc⟩
  · exact absurd hc (by simp [completeCount])
  · simpa [List.length_eq_zero] using hc

/-- **C5.**  For at least `100` frames, `detectLaps` returns the lap list
of the first candidate start position (every `300` frames within the
first `min(length, 10000)` frames) attaining the maximal score, where a
score compares number of complete laps first and total number of laps
second: every candidate scores at most the result, and every candidate
before the winning one scores strictly below it (so a later candidate
that merely ties never replaces the winner). -/
theorem c5_detectLaps_best_candidate (dist : DistFn)
    (frames : List TelemetryFrame) (h : 100 ≤ frames.length) :
    ∃ k, k < (min frames.length 10000 + 299) / 300 ∧
      detectLaps dist frames = candidateLaps dist frames (k * 300) ∧
      (∀ j, j < (min frames.length 10000 + 299) / 300 →
        lexScore (candidateLaps dist frames (j * 300)) ≤
          lexScore (detectLaps dist frames)) ∧
      (∀ j, j < k →
        lexScore (candidateLaps dist frames (j * 300)) <
          lexScore (detectLaps dist frames)) := by
  have hdet : detectLaps dist frames =
      ((List.range ((min frames.length 10000 + 299) / 300)).map
        (fun j => candidateLaps dist frames (j * 300))).foldl pickBetter [] := by
    unfold detectLaps
    rw [if_neg (by omega)]
    rw [← List.foldl_map (candidateLaps dist frames) pickBetter
      (candidateIdxs frames) ([] : List LapData)]
    unfold candidateIdxs
    rw [List.map_map]
    rfl
  obtain ⟨_, hall, hsplit⟩ := foldl_pickBetter_spec
    ((List.range ((min frames.length 10000 + 299) / 300)).map
      (fun j => candidateLaps dist frames (j * 300))) []
  rcases hsplit with hnil | ⟨l1, l2, heqsplit, _, hl1⟩
  · refine ⟨0, by omega, ?_, ?_, ?_⟩
    · have hmem : candidateLaps dist frames (0 * 300) ∈
          (List.range ((min frames.length 10000 + 299) / 300)).map
            (fun j => candidateLaps dist frames (j * 300)) :=
        List.mem_map.mpr ⟨0, List.mem_range.mpr (by omega), rfl⟩
      have h0 := hall _ hmem
      rw [hnil] at h0
      rw [hdet, hnil, eq_nil_of_lexScore_le_nil _ h0]
    · intro j hj
      rw [hdet]
      exact hall _ (List.mem_map.mpr ⟨j, List.mem_range.mpr hj, rfl⟩)
    · intro j hj
      exact absurd hj (Nat.not_lt_zero j)
  · have hkn : l1.length < (min frames.length 10000 + 299) / 300 := by
      have hlc := congrArg List.length heqsplit
      simp only [List.length_map, List.length_range, List.length_append,
        List.length_cons] at hlc
      omega
    have hk1 : ((List.range ((min frames.length 10000 + 299) / 300)).map
        (fun j => candidateLaps dist frames (j * 300)))[l1.length]? =
        some (candidateLaps dist frames (l1.length * 300)) := by
      simp [List.getElem?_range hkn]
    have hk2 : ((List.range ((min frames.length 10000 + 299) / 300)).map
        (fun j => candidateLaps dist frames (j * 300)))[l1.length]? =
        some (((List.range ((min frames.length 10000 + 299) / 300)).map
          (fun j => candidateLaps dist frames (j * 300))).foldl
            pickBetter []) := by
      conv_lhs => rw [heqsplit]
      rw [List.getElem?_append_right (le_refl _), Nat.sub_self]
      simp
    have hFk : candidateLaps dist frames (l1.length * 300) =
        ((List.range ((min frames.length 10000 + 299) / 300)).map
          (fun j => candidateLaps dist frames (j * 300))).foldl
            pickBetter [] := by
      have := hk1.symm.trans hk2
      exact Option.some.inj this
    refine ⟨l1.length, hkn, by rw [hdet, ← hFk], ?_, ?_⟩
    · intro j hj
      rw [hdet]
      exact hall _ (List.mem_map.mpr ⟨j, List.mem_range.mpr hj, rfl⟩)
    · intro j hj
      have hjn : j < (min frames.length 10000 + 299) / 300 := by omega
      have hj1 : ((List.range ((min frames.length 10000 + 299) / 300)).map
          (fun j => candidateLaps dist frames (j * 300)))[j]? =
          some (candidateLaps dist frames (j * 300)) := by
        simp [List.getElem?_range hjn]
      rw [heqsplit, List.getElem?_append_left hj] at hj1
      have hmem : candidateLaps dist frames (j * 300) ∈ l1 :=
        List.getElem?_mem hj1
      rw [hdet]
      exact hl1 _ hmem

/-- Witness for `c5_detectLaps_best_candidate` on `100` identical frames
(one candidate, index `0`). -/
theorem c5_detectLaps_best_candidate_witness :
    ∃ k, k < (min (List.replicate 100
        (⟨0, 0, 0⟩ : TelemetryFrame)).length 10000 + 299) / 300 ∧
      detectLaps zeroDist (List.replicate 100 ⟨0, 0, 0⟩) =
        candidateLaps zeroDist (List.replicate 100 ⟨0, 0, 0⟩) (k * 300) ∧
      (∀ j, j < (min (List.replicate 100
          (⟨0, 0, 0⟩ : TelemetryFrame)).length 10000 + 299) / 300 →
        lexScore (candidateLaps zeroDist
            (List.replicate 100 ⟨0, 0, 0⟩) (j * 300)) ≤
          lexScore (detectLaps zeroDist (List.replicate 100 ⟨0, 0, 0⟩))) ∧
      (∀ j, j < k →
        lexScore (candidateLaps zeroDist
            (List.replicate 100 ⟨0, 0, 0⟩) (j * 300)) <
          lexScore (detectLaps zeroDist (List.replicate 100 ⟨0, 0, 0⟩))) :=
  c5_detectLaps_best_candidate zeroDist _ (by simp)

/-- A complete two-frame lap whose frames share one coordinate (so every
consecutive distance is `0`, exactly as with the source's Haversine) and
whose `totalDistance` is `0`: its resampling has a single sample. -/
def c10lap : LapData :=
  ⟨1, [⟨0, 1, 1⟩, ⟨1, 1, 1⟩], 0, 1, true⟩

/-- **C10.**  With two complete laps whose shortest resampled lap has
fewer samples (`1`) than one micro-sector (`⌊50/5⌋ = 10`),
`calculateIdealLap` does not return `none`: `numSectors = 0`, so it
returns an `IdealLap` with an empty frame list, `lapTime = 0`,
`totalDistance = 0` and `isComplete = true`; a subsequent `getGhostFrame`
against this ideal lap reads `frames[0]` of the empty list (`bestIdx` is
`0` because the binary search exits immediately), yielding
`undefined`/`none`. -/
theorem c10_empty_ideal_lap :
    (resampleLap zeroDist c10lap 5).frames.length = 1 ∧
    calculateIdealLap zeroDist [c10lap, c10lap] 50 =
      some ⟨-1, [], 0, 0, true⟩ ∧
    ghostSearch ([] : List TelemetryFrame) 0 = 0 ∧
    getGhostFrame [c10lap, c10lap] (some ⟨-1, [], 0, 0, true⟩)
        (some ⟨0, 1, 1⟩) = ([] : List TelemetryFrame).get? 0 ∧
    ([] : List TelemetryFrame).get? 0 = none := by
  refine ⟨?_, ?_, ?_, ?_, rfl⟩
  · norm_num [resampleLap, c10lap, distMap, distMapAux, gridPoints,
      interpFrame, interpIdx, interpRatio, qAt, frameAt, lerp, zeroDist,
      List.findIdx?]
  · norm_num [calculateIdealLap, c10lap, resampleLap, distMap, distMapAux,
      gridPoints, interpFrame, interpIdx, interpRatio, qAt, frameAt, lerp,
      zeroDist, List.findIdx?, List.min?, stitchSector]
    decide
  · rfl
  · norm_num [getGhostFrame, c10lap, lapContains, lapFirstTime, lapLastTime,
      ghostMainLookup, ghostSearch, ghostSearchAux, timeAt, List.find?]

/-! ## Interpolation lemmas for `resampleLap` and `calculateIdealLap` -/

/-- The frame times are non-decreasing, in index form. -/
def timesMono (fs : List TelemetryFrame) : Prop :=
  ∀ i j : ℕ, i ≤ j → j < fs.length → timeAt fs i ≤ timeAt fs j

theorem qAt_cons_zero (x : ℚ) (xs : List ℚ) : qAt (x :: xs) 0 = x := rfl

theorem qAt_cons_succ (x : ℚ) (xs : List ℚ) (i : ℕ) :
    qAt (x :: xs) (i + 1) = qAt xs i := rfl

theorem qAt_of_lt (xs : List ℚ) (j : ℕ) (hj : j < xs.length) :
    qAt xs j = xs.get ⟨j, hj⟩ := by
  simp [qAt, List.get?_eq_getElem?, List.getElem?_eq_getElem hj]

theorem timeAt_of_lt (fs : List TelemetryFrame) (j : ℕ) (hj : j < fs.length) :
    timeAt fs j = (fs.get ⟨j, hj⟩).time := by
  simp [timeAt, List.get?_eq_getElem?, List.getElem?_eq_getElem hj]

theorem frameAt_time (fs : List TelemetryFrame) (k : ℕ) (hk : k < fs.length) :
    (frameAt fs k).time = timeAt fs k := by
  simp [frameAt, timeAt, List.get?_eq_getElem?, List.getElem?_eq_getElem hk]

/-- `findIdx?` on a cons, with the accumulator eliminated. -/
theorem findIdx?_cons_zero {α : Type} (p : α → Bool) (x : α) (xs : List α) :
    (x :: xs).findIdx? p =
      if p x then some 0 else (xs.findIdx? p).map (· + 1) := by
  rw [List.findIdx?_cons]
  by_cases hp : p x
  · rw [if_pos hp, if_pos hp]
  · rw [if_neg hp, if_neg hp, List.findIdx?_succ]

/-- A successful `findIndex` returns the first satisfying index. -/
theorem findIdx?_q_some (p : ℚ → Bool) :
    ∀ (xs : List ℚ) (k : ℕ), xs.findIdx? p = some k →
      k < xs.length ∧ p (qAt xs k) = true ∧
      ∀ j, j < k → p (qAt xs j) = false
  | [], k, h => by simp at h
  | x :: xs, k, h => by
    rw [findIdx?_cons_zero] at h
    by_cases hp : p x
    · rw [if_pos hp] at h
      obtain rfl : (0 : ℕ) = k := by simpa using h
      exact ⟨by simp, by simpa [qAt_cons_zero] using hp,
        fun j hj => absurd hj (Nat.not_lt_zero j)⟩
    · rw [if_neg hp] at h
      rcases Option.map_eq_some'.mp h with ⟨k', hk', rfl⟩
      obtain ⟨h1, h2, h3⟩ := findIdx?_q_some p xs k' hk'
      refine ⟨by simpa using Nat.succ_lt_succ h1,
        by simpa [qAt_cons_succ] using h2, ?_⟩
      intro j hj
      cases j with
      | zero =>
        rw [qAt_cons_zero]
        exact Bool.not_eq_true _ ▸ (by simpa using hp)
      | succ j' =>
        rw [qAt_cons_succ]
        exact h3 j' (by omega)

/-- A failed `findIndex` means no index satisfies the test. -/
theorem findIdx?_q_none (p : ℚ → Bool) (xs : List ℚ)
    (h : xs.findIdx? p = none) :
    ∀ j, j < xs.length → p (qAt xs j) = false := by
  rw [List.findIdx?_eq_none_iff] at h
  intro j hj
  rw [qAt_of_lt xs j hj]
  exact h _ (xs.get_mem j hj)

theorem distMapAux_length (dist : DistFn) :
    ∀ (acc : ℚ) (l : List TelemetryFrame),
      (distMapAux dist acc l).length = l.length - 1
  | _, [] => rfl
  | _, [_] => rfl
  | acc, f1 :: f2 :: rest => by
    rw [distMapAux]
    simp only [List.length_cons,
      distMapAux_length dist
        (acc + dist f1.latitude f1.longitude f2.latitude f2.longitude)
        (f2 :: rest)]
    omega

theorem distMap_length (dist : DistFn) (frames : List TelemetryFrame)
    (h : frames ≠ []) :
    (distMap dist frames).length = frames.length := by
  unfold distMap
  rw [List.length_cons, distMapAux_length]
  have := List.length_pos.mpr h
  omega

theorem distMapAux_chain (dist : DistFn)
    (hd : ∀ a b c e, 0 ≤ dist a b c e) :
    ∀ (acc : ℚ) (l : List TelemetryFrame),
      List.Chain' (· ≤ ·) (acc :: distMapAux dist acc l)
  | _, [] => by simp [distMapAux]
  | _, [_] => by simp [distMapAux]
  | acc, f1 :: f2 :: rest => by
    rw [distMapAux]
    refine List.chain'_cons.mpr ⟨?_,
      distMapAux_chain dist hd
        (acc + dist f1.latitude f1.longitude f2.latitude f2.longitude)
        (f2 :: rest)⟩
    have := hd f1.latitude f1.longitude f2.latitude f2.longitude
    linarith

/-- Index-form monotonicity from a `Chain' (· ≤ ·)`. -/
theorem qAt_mono_of_chain (xs : List ℚ)
    (hc : List.Chain' (· ≤ ·) xs) :
    ∀ i j : ℕ, i ≤ j → j < xs.length → qAt xs i ≤ qAt xs j := by
  intro i j hij hj
  rcases eq_or_lt_of_le hij with rfl | hlt
  · exact le_refl _
  · have hp := List.chain'_iff_pairwise.mp hc
    rw [List.pairwise_iff_getElem] at hp
    have hi : i < xs.length := lt_of_le_of_lt hij hj
    have h := hp i j hi hj hlt
    rw [qAt_of_lt xs i hi, qAt_of_lt xs j hj]
    simpa using h

theorem distMap_mono (dist : DistFn) (frames : List TelemetryFrame)
    (hd : ∀ a b c e, 0 ≤ dist a b c e) :
    ∀ i j : ℕ, i ≤ j → j < (distMap dist frames).length →
      qAt (distMap dist frames) i ≤ qAt (distMap dist frames) j :=
  qAt_mono_of_chain _ (distMapAux_chain dist hd 0 frames)

theorem distMap_head (dist : DistFn) (frames : List TelemetryFrame) :
    qAt (distMap dist frames) 0 = 0 := rfl

theorem distMapAux_getLast? (dist : DistFn) :
    ∀ (acc : ℚ) (l : List TelemetryFrame),
      (acc :: distMapAux dist acc l).getLast? =
        some (acc + lapDistance dist l)
  | acc, [] => by simp [distMapAux, lapDistance]
  | acc, [f] => by simp [distMapAux, lapDistance]
  | acc, f1 :: f2 :: rest => by
    rw [distMapAux, lapDistance, List.getLast?_cons_cons,
      distMapAux_getLast? dist
        (acc + dist f1.latitude f1.longitude f2.latitude f2.longitude)
        (f2 :: rest)]
    exact congrArg some (by ring)

theorem qAt_getLast? (xs : List ℚ) (h : xs ≠ []) :
    xs.getLast? = some (qAt xs (xs.length - 1)) := by
  have hl : xs.length - 1 < xs.length := by
    have := List.length_pos.mpr h
    omega
  rw [List.getLast?_eq_getElem?, List.getElem?_eq_getElem hl,
    qAt_of_lt xs _ hl]
  simp

/-- The last `distMap` entry is the summed consecutive-frame distance. -/
theorem distMap_last (dist : DistFn) (frames : List TelemetryFrame) :
    qAt (distMap dist frames) ((distMap dist frames).length - 1) =
      lapDistance dist frames := by
  have h1 := distMapAux_getLast? dist 0 frames
  have h2 := qAt_getLast? (distMap dist frames) (by simp [distMap])
  rw [distMap] at h2 ⊢
  rw [h1] at h2
  have := Option.some.inj h2
  linarith [this]

theorem interpIdx_bounds (dm : List ℚ) (d : ℚ) (hn : 2 ≤ dm.length) :
    1 ≤ interpIdx dm d ∧ interpIdx dm d ≤ dm.length - 1 := by
  rcases hf : dm.findIdx? (fun v => decide (d ≤ v)) with _ | k
  · have hidx : interpIdx dm d = dm.length - 1 := by
      simp only [interpIdx, hf]
      rw [if_neg (show ¬ (dm.length - 1 = 0) by omega)]
    omega
  · have hk := (findIdx?_q_some _ dm k hf).1
    by_cases hk0 : k = 0
    · have hidx : interpIdx dm d = 1 := by
        simp [interpIdx, hf, hk0]
      omega
    · have hidx : interpIdx dm d = k := by
        simp only [interpIdx, hf]
        rw [if_neg hk0]
      omega

/-- The bracket of the interpolation index: the left endpoint is at most
`d`, and either `d` is at most the right endpoint (the `findIndex` hit) or
every `distMap` entry is below `d` (the fallback bracket at the end). -/
theorem interpIdx_bracket (dm : List ℚ) (d : ℚ)
    (hq : ∀ i j : ℕ, i ≤ j → j < dm.length → qAt dm i ≤ qAt dm j)
    (h0 : qAt dm 0 = 0) (hn : 2 ≤ dm.length) (hd0 : 0 ≤ d) :
    qAt dm (interpIdx dm d - 1) ≤ d ∧
    (d ≤ qAt dm (interpIdx dm d) ∨
      (interpIdx dm d = dm.length - 1 ∧
        ∀ j, j < dm.length → qAt dm j < d)) := by
  rcases hf : dm.findIdx? (fun v => decide (d ≤ v)) with _ | k
  · have hall := findIdx?_q_none _ dm hf
    have hidx : interpIdx dm d = dm.length - 1 := by
      simp only [interpIdx, hf]
      rw [if_neg (show ¬ (dm.length - 1 = 0) by omega)]
    rw [hidx]
    constructor
    · have := hall (dm.length - 1 - 1) (by omega)
      simp only [decide_eq_false_iff_not, not_le] at this
      exact le_of_lt this
    · refine Or.inr ⟨rfl, fun j hj => ?_⟩
      have := hall j hj
      simp only [decide_eq_false_iff_not, not_le] at this
      exact this
  · obtain ⟨hk, hpk, hprev⟩ := findIdx?_q_some _ dm k hf
    simp only [decide_eq_true_eq] at hpk
    by_cases hk0 : k = 0
    · subst hk0
      have hidx : interpIdx dm d = 1 := by
        simp [interpIdx, hf]
      rw [hidx]
      constructor
      · show qAt dm 0 ≤ d
        rw [h0]
        exact hd0
      · left
        have h1 : d ≤ 0 := by
          rw [← h0]
          exact hpk
        have h2 : qAt dm 0 ≤ qAt dm 1 := hq 0 1 (by omega) (by omega)
        rw [h0] at h2
        linarith
    · have hidx : interpIdx dm d = k := by
        simp only [interpIdx, hf]
        rw [if_neg hk0]
      rw [hidx]
      constructor
      · have := hprev (k - 1) (by omega)
        simp only [decide_eq_false_iff_not, not_le] at this
        exact le_of_lt this
      · exact Or.inl hpk

/-- A larger target distance gets a bracket at least as far right. -/
theorem interpIdx_mono (dm : List ℚ) (d d' : ℚ) (hdd : d ≤ d')
    (hn : 2 ≤ dm.length) :
    interpIdx dm d ≤ interpIdx dm d' := by
  rcases hf' : dm.findIdx? (fun v => decide (d' ≤ v)) with _ | k'
  · have h2 := (interpIdx_bounds dm d hn).2
    have hidx : interpIdx dm d' = dm.length - 1 := by
      simp only [interpIdx, hf']
      rw [if_neg (show ¬ (dm.length - 1 = 0) by omega)]
    omega
  · obtain ⟨hk', hpk', _⟩ := findIdx?_q_some _ dm k' hf'
    simp only [decide_eq_true_eq] at hpk'
    rcases hf : dm.findIdx? (fun v => decide (d ≤ v)) with _ | k
    · exfalso
      have := findIdx?_q_none _ dm hf k' hk'
      simp only [decide_eq_false_iff_not, not_le] at this
      linarith
    · obtain ⟨_, _, hprev⟩ := findIdx?_q_some _ dm k hf
      have hkk' : k ≤ k' := by
        by_contra hgt
        push_neg at hgt
        have := hprev k' hgt
        simp only [decide_eq_false_iff_not, not_le] at this
        linarith
      have e1 : interpIdx dm d = if k = 0 then 1 else k := by
        simp only [interpIdx, hf]
      have e2 : interpIdx dm d' = if k' = 0 then 1 else k' := by
        simp only [interpIdx, hf']
      rw [e1, e2]
      split_ifs <;> omega

/-- The interpolated time is at least the left bracketing frame's time. -/
theorem interpFrame_time_ge (dm : List ℚ) (frames : List TelemetryFrame)
    (d : ℚ)
    (hq : ∀ i j : ℕ, i ≤ j → j < dm.length → qAt dm i ≤ qAt dm j)
    (h0 : qAt dm 0 = 0) (hn : 2 ≤ dm.length)
    (hlen : dm.length = frames.length)
    (ht : timesMono frames) (hd0 : 0 ≤ d) :
    timeAt frames (interpIdx dm d - 1) ≤ (interpFrame dm frames d).time := by
  obtain ⟨hi1, hi2⟩ := interpIdx_bounds dm d hn
  have hiF : interpIdx dm d < frames.length := by omega
  have hi1F : interpIdx dm d - 1 < frames.length := by omega
  have hbr := interpIdx_bracket dm d hq h0 hn hd0
  show timeAt frames (interpIdx dm d - 1) ≤
    lerp (frameAt frames (interpIdx dm d - 1)).time
      (frameAt frames (interpIdx dm d)).time (interpRatio dm d)
  rw [frameAt_time _ _ hi1F, frameAt_time _ _ hiF]
  have ht12 : timeAt frames (interpIdx dm d - 1) ≤
      timeAt frames (interpIdx dm d) := ht _ _ (by omega) hiF
  have hrt : 0 ≤ interpRatio dm d := by
    unfold interpRatio
    apply div_nonneg
    · linarith [hbr.1]
    · by_cases hden : qAt dm (interpIdx dm d) -
          qAt dm (interpIdx dm d - 1) = 0
      · rw [if_pos hden]
        norm_num
      · rw [if_neg hden]
        have := hq (interpIdx dm d - 1) (interpIdx dm d) (by omega) (by omega)
        linarith
  unfold lerp
  nlinarith [mul_nonneg (sub_nonneg.mpr ht12) hrt]

/-- When `d` does not exceed the right bracket endpoint, the interpolated
time is at most the right bracketing frame's time. -/
theorem interpFrame_time_le (dm : List ℚ) (frames : List TelemetryFrame)
    (d : ℚ)
    (hq : ∀ i j : ℕ, i ≤ j → j < dm.length → qAt dm i ≤ qAt dm j)
    (hn : 2 ≤ dm.length)
    (hlen : dm.length = frames.length)
    (ht : timesMono frames)
    (hdle : d ≤ qAt dm (interpIdx dm d)) :
    (interpFrame dm frames d).time ≤ timeAt frames (interpIdx dm d) := by
  obtain ⟨hi1, hi2⟩ := interpIdx_bounds dm d hn
  have hiF : interpIdx dm d < frames.length := by omega
  have hi1F : interpIdx dm d - 1 < frames.length := by omega
  show lerp (frameAt frames (interpIdx dm d - 1)).time
      (frameAt frames (interpIdx dm d)).time (interpRatio dm d) ≤
    timeAt frames (interpIdx dm d)
  rw [frameAt_time _ _ hi1F, frameAt_time _ _ hiF]
  have ht12 : timeAt frames (interpIdx dm d - 1) ≤
      timeAt frames (interpIdx dm d) := ht _ _ (by omega) hiF
  have hd12 : qAt dm (interpIdx dm d - 1) ≤ qAt dm (interpIdx dm d) :=
    hq _ _ (by omega) (by omega)
  unfold lerp interpRatio
  by_cases hden : qAt dm (interpIdx dm d) - qAt dm (interpIdx dm d - 1) = 0
  · rw [if_pos hden, div_one]
    have hrd : d - qAt dm (interpIdx dm d - 1) ≤ 0 := by linarith
    nlinarith [mul_nonpos_of_nonneg_of_nonpos
      (sub_nonneg.mpr ht12) hrd]
  · rw [if_neg hden]
    have hpos : 0 < qAt dm (interpIdx dm d) - qAt dm (interpIdx dm d - 1) :=
      lt_of_le_of_ne (by linarith) (Ne.symm hden)
    have hrt1 : (d - qAt dm (interpIdx dm d - 1)) /
        (qAt dm (interpIdx dm d) - qAt dm (interpIdx dm d - 1)) ≤ 1 := by
      rw [div_le_one hpos]
      linarith
    nlinarith [mul_le_mul_of_nonneg_left hrt1 (sub_nonneg.mpr ht12)]

/-- `resampleLap`'s grid starts at distance `0`, where the interpolated
time is exactly the first frame's time. -/
theorem interpFrame_time_zero (dist : DistFn) (frames : List TelemetryFrame)
    (hframes : 2 ≤ frames.length) :
    (interpFrame (distMap dist frames) frames 0).time = timeAt frames 0 := by
  have hfi : (distMap dist frames).findIdx?
      (fun v => decide ((0 : ℚ) ≤ v)) = some 0 := by
    unfold distMap
    rw [findIdx?_cons_zero, if_pos (by norm_num)]
  have hidx : interpIdx (distMap dist frames) 0 = 1 := by
    simp [interpIdx, hfi]
  have hrt : interpRatio (distMap dist frames) 0 = 0 := by
    unfold interpRatio
    rw [hidx]
    norm_num [distMap_head]
  show lerp (frameAt frames (interpIdx (distMap dist frames) 0 - 1)).time
      (frameAt frames (interpIdx (distMap dist frames) 0)).time
      (interpRatio (distMap dist frames) 0) = timeAt frames 0
  rw [hidx, hrt]
  unfold lerp
  norm_num [frameAt_time frames 0 (by omega)]

/-- Interpolated times are monotone in the target distance. -/
theorem interpFrame_time_mono (dm : List ℚ) (frames : List TelemetryFrame)
    (d d' : ℚ)
    (hq : ∀ i j : ℕ, i ≤ j → j < dm.length → qAt dm i ≤ qAt dm j)
    (h0 : qAt dm 0 = 0) (hn : 2 ≤ dm.length)
    (hlen : dm.length = frames.length)
    (ht : timesMono frames) (hd0 : 0 ≤ d) (hdd : d ≤ d') :
    (interpFrame dm frames d).time ≤ (interpFrame dm frames d').time := by
  have hii' := interpIdx_mono dm d d' hdd hn
  obtain ⟨hi1, hi2⟩ := interpIdx_bounds dm d hn
  obtain ⟨hi1', hi2'⟩ := interpIdx_bounds dm d' hn
  rcases eq_or_lt_of_le hii' with heq | hlt
  · show lerp (frameAt frames (interpIdx dm d - 1)).time
        (frameAt frames (interpIdx dm d)).time (interpRatio dm d) ≤
      lerp (frameAt frames (interpIdx dm d' - 1)).time
        (frameAt frames (interpIdx dm d')).time (interpRatio dm d')
    have hiF : interpIdx dm d < frames.length := by omega
    have ht12 : (frameAt frames (interpIdx dm d - 1)).time ≤
        (frameAt frames (interpIdx dm d)).time := by
      rw [frameAt_time _ _ (by omega : interpIdx dm d - 1 < frames.length),
        frameAt_time _ _ hiF]
      exact ht _ _ (by omega) hiF
    have hd12 : qAt dm (interpIdx dm d - 1) ≤ qAt dm (interpIdx dm d) :=
      hq _ _ (by omega) (by omega)
    rw [← heq]
    unfold lerp interpRatio
    rw [← heq]
    by_cases hden : qAt dm (interpIdx dm d) -
        qAt dm (interpIdx dm d - 1) = 0
    · rw [if_pos hden, div_one, div_one]
      nlinarith [mul_le_mul_of_nonneg_left
        (sub_le_sub_right hdd (qAt dm (interpIdx dm d - 1)))
        (sub_nonneg.mpr ht12)]
    · rw [if_neg hden]
      have hpos : 0 < qAt dm (interpIdx dm d) -
          qAt dm (interpIdx dm d - 1) :=
        lt_of_le_of_ne (by linarith) (Ne.symm hden)
      have hrr : (d - qAt dm (interpIdx dm d - 1)) /
          (qAt dm (interpIdx dm d) - qAt dm (interpIdx dm d - 1)) ≤
          (d' - qAt dm (interpIdx dm d - 1)) /
          (qAt dm (interpIdx dm d) - qAt dm (interpIdx dm d - 1)) := by
        exact (div_le_div_iff_of_pos_right hpos).mpr (by linarith)
      nlinarith [mul_le_mul_of_nonneg_left hrr (sub_nonneg.mpr ht12)]
  · have h1 : (interpFrame dm frames d).time ≤
        timeAt frames (interpIdx dm d) := by
      apply interpFrame_time_le dm frames d hq hn hlen ht
      rcases (interpIdx_bracket dm d hq h0 hn hd0).2 with hcase | ⟨hfb, _⟩
      · exact hcase
      · omega
    have h2 : timeAt frames (interpIdx dm d) ≤
        timeAt frames (interpIdx dm d' - 1) :=
      ht _ _ (by omega) (by omega)
    have h3 : timeAt frames (interpIdx dm d' - 1) ≤
        (interpFrame dm frames d').time :=
      interpFrame_time_ge dm frames d' hq h0 hn hlen ht
        (le_trans hd0 hdd)
    linarith

theorem gridPoints_spec (s t : ℚ) (hs : 0 < s) (ht0 : 0 ≤ t) :
    ∀ j, j < (gridPoints s t).length →
      qAt (gridPoints s t) j = (j : ℚ) * s := by
  intro j hj
  unfold gridPoints at hj ⊢
  rw [if_pos hs, if_pos ht0] at hj ⊢
  rw [qAt_of_lt _ j hj]
  simp

theorem gridPoints_le (s t : ℚ) (hs : 0 < s) (ht0 : 0 ≤ t) :
    ∀ j, j < (gridPoints s t).length → (j : ℚ) * s ≤ t := by
  intro j hj
  unfold gridPoints at hj
  rw [if_pos hs, if_pos ht0] at hj
  simp only [List.length_map, List.length_range] at hj
  have hfl : (0 : ℤ) ≤ ⌊t / s⌋ :=
    Int.floor_nonneg.mpr (div_nonneg ht0 (le_of_lt hs))
  have hj' : (j : ℤ) ≤ ⌊t / s⌋ := by omega
  have h2 : ((j : ℤ) : ℚ) ≤ t / s := Int.le_floor.mp hj'
  push_cast at h2
  have h3 : (j : ℚ) * s ≤ (t / s) * s :=
    mul_le_mul_of_nonneg_right h2 (le_of_lt hs)
  rwa [div_mul_cancel₀ t (ne_of_gt hs)] at h3

theorem resampleLap_frames (dist : DistFn) (lap : LapData)
    (stepMeters : ℚ) (h2 : 2 ≤ lap.frames.length) :
    (resampleLap dist lap stepMeters).frames =
      (gridPoints stepMeters lap.totalDistance).map
        (interpFrame (distMap dist lap.frames) lap.frames) := by
  unfold resampleLap
  rw [if_neg (by omega)]

theorem timeAt_map_interp (dm : List ℚ) (frames : List TelemetryFrame)
    (gp : List ℚ) (j : ℕ) (hj : j < gp.length) :
    timeAt (gp.map (interpFrame dm frames)) j =
      (interpFrame dm frames (qAt gp j)).time := by
  rw [timeAt_of_lt _ j (by simpa using hj), qAt_of_lt gp j hj]
  simp

/-- Time behavior of `resampleLap`: with a nonnegative distance function
and non-decreasing input times, the resampled times are non-decreasing;
the first resampled time is the first input time; and — when the lap's
`totalDistance` field does not exceed the summed consecutive-frame
distance, so the grid never extrapolates past the last frame — every
resampled time is at most the last input time. -/
theorem resampleLap_time_spec (dist : DistFn) (lap : LapData)
    (stepMeters : ℚ)
    (hd : ∀ a b c e, 0 ≤ dist a b c e)
    (ht : timesMono lap.frames)
    (hs : 0 < stepMeters) :
    timesMono (resampleLap dist lap stepMeters).frames ∧
    ((resampleLap dist lap stepMeters).frames ≠ [] →
      timeAt (resampleLap dist lap stepMeters).frames 0 =
        timeAt lap.frames 0) ∧
    (lap.totalDistance ≤ lapDistance dist lap.frames →
      ∀ j, j < (resampleLap dist lap stepMeters).frames.length →
        timeAt (resampleLap dist lap stepMeters).frames j ≤
          timeAt lap.frames (lap.frames.length - 1)) := by
  by_cases h2 : lap.frames.length < 2
  · unfold resampleLap
    rw [if_pos h2]
    exact ⟨ht, fun _ => rfl,
      fun _ j hj => ht j (lap.frames.length - 1) (by omega) (by omega)⟩
  · push_neg at h2
    have hne : lap.frames ≠ [] := by
      intro h
      rw [h] at h2
      simp at h2
    have hlen : (distMap dist lap.frames).length = lap.frames.length :=
      distMap_length dist lap.frames hne
    have hq := distMap_mono dist lap.frames hd
    have h0 : qAt (distMap dist lap.frames) 0 = 0 :=
      distMap_head dist lap.frames
    have hn2 : 2 ≤ (distMap dist lap.frames).length := by omega
    rw [resampleLap_frames dist lap stepMeters h2]
    by_cases htd : 0 ≤ lap.totalDistance
    · refine ⟨?_, ?_, ?_⟩
      · intro i j hij hj
        rw [List.length_map] at hj
        rw [timeAt_map_interp _ _ _ i (by omega),
          timeAt_map_interp _ _ _ j hj,
          gridPoints_spec _ _ hs htd i (by omega),
          gridPoints_spec _ _ hs htd j hj]
        apply interpFrame_time_mono _ _ _ _ hq h0 hn2 hlen ht
        · positivity
        · have hc : (i : ℚ) ≤ (j : ℚ) := by exact_mod_cast hij
          exact mul_le_mul_of_nonneg_right hc (le_of_lt hs)
      · intro hne'
        have hlen0 : 0 < (gridPoints stepMeters lap.totalDistance).length := by
          have := List.length_pos.mpr hne'
          simpa using this
        rw [timeAt_map_interp _ _ _ 0 hlen0,
          gridPoints_spec _ _ hs htd 0 hlen0]
        rw [Nat.cast_zero, zero_mul]
        exact interpFrame_time_zero dist lap.frames h2
      · intro htot j hj
        rw [List.length_map] at hj
        rw [timeAt_map_interp _ _ _ j hj, gridPoints_spec _ _ hs htd j hj]
        have hd0 : (0 : ℚ) ≤ (j : ℚ) * stepMeters := by positivity
        have hdle : (j : ℚ) * stepMeters ≤
            qAt (distMap dist lap.frames)
              ((distMap dist lap.frames).length - 1) := by
          rw [distMap_last]
          exact le_trans (gridPoints_le _ _ hs htd j hj) htot
        rcases (interpIdx_bracket _ _ hq h0 hn2 hd0).2 with hcase | ⟨_, hall⟩
        · have hb1 := interpFrame_time_le _ lap.frames _ hq hn2 hlen ht hcase
          have hb2 := (interpIdx_bounds (distMap dist lap.frames)
            ((j : ℚ) * stepMeters) hn2).2
          have hb3 := ht (interpIdx (distMap dist lap.frames)
              ((j : ℚ) * stepMeters)) (lap.frames.length - 1)
            (by omega) (by omega)
          linarith
        · exfalso
          have := hall ((distMap dist lap.frames).length - 1) (by omega)
          linarith
    · have hgp : gridPoints stepMeters lap.totalDistance = [] := by
        unfold gridPoints
        rw [if_pos hs, if_neg htd]
      rw [hgp]
      refine ⟨?_, ?_, ?_⟩
      · intro i j _ hj
        simp at hj
      · intro hne'
        simp at hne'
      · intro _ j hj
        simp at hj

theorem timeAt_append (xs ys : List TelemetryFrame) (k : ℕ) :
    timeAt (xs ++ ys) k =
      if k < xs.length then timeAt xs k else timeAt ys (k - xs.length) := by
  simp only [timeAt, List.get?_eq_getElem?, List.getElem?_append]
  split <;> rfl

theorem timesMono_append (xs ys : List TelemetryFrame)
    (hx : timesMono xs) (hy : timesMono ys)
    (hxy : ∀ i, i < xs.length → ∀ j, j < ys.length →
      timeAt xs i ≤ timeAt ys j) :
    timesMono (xs ++ ys) := by
  intro i j hij hj
  rw [List.length_append] at hj
  rw [timeAt_append, timeAt_append]
  split_ifs with hi hj' hj'
  · exact hx i j hij hj'
  · exact hxy i hi (j - xs.length) (by omega)
  · omega
  · exact hy (i - xs.length) (j - xs.length) (by omega) (by omega)

theorem timeAt_head? (fs : List TelemetryFrame) (f : TelemetryFrame)
    (h : fs.head? = some f) : f.time = timeAt fs 0 := by
  cases fs with
  | nil => simp at h
  | cons x xs =>
    simp only [List.head?_cons, Option.some.injEq] at h
    subst h
    rfl

theorem timeAt_getLast? (fs : List TelemetryFrame) (f : TelemetryFrame)
    (h : fs.getLast? = some f) : f.time = timeAt fs (fs.length - 1) := by
  have hne : fs ≠ [] := by
    intro hnil
    rw [hnil] at h
    simp at h
  have hl : fs.length - 1 < fs.length := by
    have := List.length_pos.mpr hne
    omega
  rw [List.getLast?_eq_getElem?, List.getElem?_eq_getElem hl] at h
  rw [timeAt_of_lt fs _ hl]
  simp only [Option.some.injEq] at h
  rw [← h]
  simp

/-- `Math.min(...lengths)` bounds every entry from below. -/
theorem natMin?_le {xs : List ℕ} {a : ℕ} (h : xs.min? = some a) :
    ∀ b ∈ xs, a ≤ b :=
  (List.le_min?_iff (fun _ _ _ => Nat.le_min) h).mp (le_refl a)

/-- The sector-minimum fold of `calculateIdealLap`: on a nonempty lap
list it yields a pair `(bestTime, bestIdx)` with `bestIdx` a valid index
whose lap attains `bestTime`, and `bestTime` at most every lap's sector
time. -/
theorem bestSector_spec (rls : List LapData) (startIdx endIdx : ℕ)
    (hne : rls ≠ []) :
    ∃ bt bi, bestSector rls startIdx endIdx = some (bt, bi) ∧
      (∃ l, rls.get? bi = some l ∧ bt = sectorTimeOf l startIdx endIdx) ∧
      ∀ l ∈ rls, bt ≤ sectorTimeOf l startIdx endIdx := by
  have main : ∀ (ps : List (ℕ × LapData)) (b : ℚ) (bi : ℕ),
      ∃ bt bti,
        ps.foldl (fun best li =>
          match best with
          | none => some (sectorTimeOf li.2 startIdx endIdx, li.1)
          | some (b, bi) =>
            if sectorTimeOf li.2 startIdx endIdx < b then
              some (sectorTimeOf li.2 startIdx endIdx, li.1)
            else some (b, bi)) (some (b, bi)) = some (bt, bti) ∧
        ((bt = b ∧ bti = bi) ∨
          ∃ p ∈ ps, bti = p.1 ∧ bt = sectorTimeOf p.2 startIdx endIdx) ∧
        bt ≤ b ∧
        ∀ p ∈ ps, bt ≤ sectorTimeOf p.2 startIdx endIdx := by
    intro ps
    induction ps with
    | nil =>
      intro b bi
      exact ⟨b, bi, rfl, Or.inl ⟨rfl, rfl⟩, le_refl _,
        fun p hp => absurd hp (List.not_mem_nil p)⟩
    | cons p ps ih =>
      intro b bi
      rw [List.foldl_cons]
      by_cases hlt : sectorTimeOf p.2 startIdx endIdx < b
      · simp only [if_pos hlt]
        obtain ⟨bt, bti, heq, hsrc, hle, hall⟩ :=
          ih (sectorTimeOf p.2 startIdx endIdx) p.1
        refine ⟨bt, bti, heq, ?_, le_of_lt (lt_of_le_of_lt hle hlt), ?_⟩
        · rcases hsrc with ⟨h1, h2⟩ | ⟨q, hq, h1, h2⟩
          · exact Or.inr ⟨p, List.mem_cons_self p ps, h2, h1⟩
          · exact Or.inr ⟨q, List.mem_cons_of_mem p hq, h1, h2⟩
        · intro q hq
          rcases List.mem_cons.mp hq with hq | hq
          · rw [hq]
            exact hle
          · exact hall q hq
      · simp only [if_neg hlt]
        obtain ⟨bt, bti, heq, hsrc, hle, hall⟩ := ih b bi
        refine ⟨bt, bti, heq, ?_, hle, ?_⟩
        · rcases hsrc with ⟨h1, h2⟩ | ⟨q, hq, h1, h2⟩
          · exact Or.inl ⟨h1, h2⟩
          · exact Or.inr ⟨q, List.mem_cons_of_mem p hq, h1, h2⟩
        · intro q hq
          rcases List.mem_cons.mp hq with hq | hq
          · rw [hq]
            exact le_trans hle (le_of_not_lt hlt)
          · exact hall q hq
  obtain ⟨r, rs, hrls⟩ := List.exists_cons_of_ne_nil hne
  have henum : rls.enum = (0, r) :: rs.enumFrom 1 := by
    rw [hrls]
    rfl
  obtain ⟨bt, bti, heq, hsrc, hle, hall⟩ :=
    main (rs.enumFrom 1) (sectorTimeOf r startIdx endIdx) 0
  refine ⟨bt, bti, ?_, ?_, ?_⟩
  · show bestSector rls startIdx endIdx = some (bt, bti)
    unfold bestSector
    rw [henum, List.foldl_cons]
    exact heq
  · rcases hsrc with ⟨h1, h2⟩ | ⟨q, hq, h1, h2⟩
    · refine ⟨r, ?_, h1⟩
      rw [h2, hrls]
      rfl
    · obtain ⟨i, hi⟩ := List.mem_iff_getElem?.mp hq
      rw [List.getElem?_enumFrom] at hi
      rcases hri : rs[i]? with _ | elem
      · rw [hri] at hi
        simp at hi
      · rw [hri] at hi
        simp only [Option.map_some'] at hi
        obtain rfl := Option.some.inj hi
        refine ⟨elem, ?_, h2⟩
        rw [h1, hrls]
        show (r :: rs).get? (1 + i) = some elem
        rw [Nat.add_comm 1 i, List.get?_eq_getElem?]
        simp only [List.getElem?_cons_succ]
        exact hri
  · intro l hl
    rw [hrls] at hl
    rcases List.mem_cons.mp hl with hl | hl
    · rw [hl]
      exact hle
    · obtain ⟨i, hi⟩ := List.mem_iff_getElem?.mp hl
      have hmem : (1 + i, l) ∈ rs.enumFrom 1 := by
        rw [List.mem_iff_getElem?]
        refine ⟨i, ?_⟩
        rw [List.getElem?_enumFrom, hi]
        rfl
      exact hall (1 + i, l) hmem

theorem timeAt_take_drop (l : List TelemetryFrame) (a b j : ℕ) (hj : j < b) :
    timeAt ((l.drop a).take b) j = timeAt l (a + j) := by
  simp only [timeAt, List.get?_eq_getElem?]
  rw [List.getElem?_take_of_lt hj, List.getElem?_drop]

theorem timeAt_map_shift (sf : List TelemetryFrame) (c s0 : ℚ) (j : ℕ)
    (hj : j < sf.length) :
    timeAt (sf.map (fun f => { f with time := c + (f.time - s0) })) j =
      c + (timeAt sf j - s0) := by
  rw [timeAt_of_lt _ j (by simpa using hj), timeAt_of_lt sf j hj]
  simp

theorem headTime_eq (sf : List TelemetryFrame) (h : sf ≠ []) :
    ((sf.head?).map (·.time)).getD 0 = timeAt sf 0 := by
  rcases hh : sf.head? with _ | f
  · rw [List.head?_eq_none_iff] at hh
    exact absurd hh h
  · simp only [Option.map_some', Option.getD_some]
    exact timeAt_head? sf f hh

/-- One stitching step of `calculateIdealLap`: the best lap's sector
slice is nonempty, its rewritten times start exactly at the accumulated
ideal time `acc.2`, are non-decreasing, and stay within
`acc.2 + bestSectorTime`; `bestSectorTime` is a lower bound on every
lap's sector time. -/
theorem stitchSector_step (rls : List LapData) (ips : ℕ)
    (acc : List TelemetryFrame × ℚ) (s : ℕ)
    (hips : 1 ≤ ips)
    (hne : rls ≠ [])
    (hmono : ∀ rl ∈ rls, timesMono rl.frames)
    (minLen : ℕ)
    (hminLen : ∀ rl ∈ rls, minLen ≤ rl.frames.length)
    (hstart : s * ips + ips ≤ minLen) :
    ∃ bt newFs,
      stitchSector rls ips acc s = (acc.1 ++ newFs, acc.2 + bt) ∧
      newFs ≠ [] ∧
      timesMono newFs ∧
      timeAt newFs 0 = acc.2 ∧
      (∀ j, j < newFs.length → timeAt newFs j ≤ acc.2 + bt) ∧
      (∀ j, j < newFs.length → acc.2 ≤ timeAt newFs j) ∧
      (∀ rl ∈ rls, bt ≤ sectorTimeOf rl (s * ips) (s * ips + ips)) := by
  obtain ⟨bt, bi, hbs, ⟨bl, hbl, hbt⟩, hball⟩ :=
    bestSector_spec rls (s * ips) (s * ips + ips) hne
  have hblmem : bl ∈ rls := List.get?_mem hbl
  have hmonobl := hmono bl hblmem
  have hminbl := hminLen bl hblmem
  have hstartL : s * ips < bl.frames.length := by omega
  have hLpos : 1 ≤ bl.frames.length := by omega
  have hsf_len : ((bl.frames.drop (s * ips)).take
      (min (s * ips + ips) bl.frames.length - s * ips)).length =
      min (s * ips + ips) bl.frames.length - s * ips := by
    simp only [List.length_take, List.length_drop]
    omega
  have hsf_pos : 1 ≤ min (s * ips + ips) bl.frames.length - s * ips := by
    omega
  have hsf_ne : (bl.frames.drop (s * ips)).take
      (min (s * ips + ips) bl.frames.length - s * ips) ≠ [] := by
    intro hnil
    rw [← List.length_eq_zero] at hnil
    omega
  have hs0 : (((((bl.frames.drop (s * ips)).take
      (min (s * ips + ips) bl.frames.length - s * ips))).head?).map
        (·.time)).getD 0 = timeAt bl.frames (s * ips) := by
    rw [headTime_eq _ hsf_ne, timeAt_take_drop bl.frames _ _ 0 hsf_pos,
      Nat.add_zero]
  have hstep : stitchSector rls ips acc s =
      (acc.1 ++ (((bl.frames.drop (s * ips)).take
          (min (s * ips + ips) bl.frames.length - s * ips)).map
        (fun f => { f with time := acc.2 +
          (f.time - timeAt bl.frames (s * ips)) })),
       acc.2 + bt) := by
    simp only [stitchSector, hbs, hbl, Option.getD_some, hs0]
  refine ⟨bt, _, hstep, by simpa using hsf_ne, ?_, ?_, ?_, ?_,
    fun rl hrl => hball rl hrl⟩
  · intro i j hij hj
    rw [List.length_map, hsf_len] at hj
    rw [timeAt_map_shift _ _ _ i (by omega), timeAt_map_shift _ _ _ j (by omega)]
    rw [timeAt_take_drop bl.frames _ _ i (by omega),
      timeAt_take_drop bl.frames _ _ j (by omega)]
    have := hmonobl (s * ips + i) (s * ips + j) (by omega) (by omega)
    linarith
  · rw [timeAt_map_shift _ _ _ 0 (by omega),
      timeAt_take_drop bl.frames _ _ 0 hsf_pos, Nat.add_zero]
    ring
  · intro j hj
    rw [List.length_map, hsf_len] at hj
    rw [timeAt_map_shift _ _ _ j (by omega),
      timeAt_take_drop bl.frames _ _ j (by omega)]
    have hbt' : bt = timeAt bl.frames
        (min (s * ips + ips) (bl.frames.length - 1)) -
        timeAt bl.frames (s * ips) := hbt
    have hmm := hmonobl (s * ips + j)
      (min (s * ips + ips) (bl.frames.length - 1)) (by omega) (by omega)
    rw [hbt']
    linarith
  · intro j hj
    rw [List.length_map, hsf_len] at hj
    rw [timeAt_map_shift _ _ _ j (by omega),
      timeAt_take_drop bl.frames _ _ j (by omega)]
    have := hmonobl (s * ips) (s * ips + j) (by omega) (by omega)
    linarith

/-- The stitching fold keeps the accumulated ideal frames time-sorted
and starting at `0`, with every accumulated time at most the accumulated
ideal total. -/
theorem idealStitch_invariant (rls : List LapData) (ips : ℕ)
    (hips : 1 ≤ ips) (hne : rls ≠ [])
    (hmono : ∀ rl ∈ rls, timesMono rl.frames)
    (minLen : ℕ) (hminLen : ∀ rl ∈ rls, minLen ≤ rl.frames.length)
    (numSectors : ℕ) (hns : numSectors * ips ≤ minLen) :
    ∀ N, N ≤ numSectors →
      timesMono ((List.range N).foldl (stitchSector rls ips) ([], 0)).1 ∧
      (∀ f, ((List.range N).foldl (stitchSector rls ips)
          ([], 0)).1.getLast? = some f →
        f.time ≤ ((List.range N).foldl (stitchSector rls ips) ([], 0)).2) ∧
      (∀ f, ((List.range N).foldl (stitchSector rls ips)
          ([], 0)).1.head? = some f → f.time = 0) ∧
      (((List.range N).foldl (stitchSector rls ips) ([], 0)).1 = [] →
        ((List.range N).foldl (stitchSector rls ips) ([], 0)).2 = 0) := by
  intro N
  induction N with
  | zero =>
    intro _
    refine ⟨?_, ?_, ?_, ?_⟩
    · intro i j _ hj
      simp at hj
    · intro f hf
      simp at hf
    · intro f hf
      simp at hf
    · intro _
      rfl
  | succ N ih =>
    intro hN1
    obtain ⟨ia, ib, ic, id⟩ := ih (by omega)
    have hfold : (List.range (N + 1)).foldl (stitchSector rls ips) ([], 0) =
        stitchSector rls ips
          ((List.range N).foldl (stitchSector rls ips) ([], 0)) N := by
      rw [List.range_succ, List.foldl_append, List.foldl_cons, List.foldl_nil]
    have hstartN : N * ips + ips ≤ minLen := by
      have h1 : (N + 1) * ips ≤ numSectors * ips :=
        Nat.mul_le_mul_right ips hN1
      have h2 : (N + 1) * ips = N * ips + ips := Nat.succ_mul N ips
      omega
    obtain ⟨bt, newFs, hstep, hnewne, hnewmono, hnew0, hnewle, hnewge, _⟩ :=
      stitchSector_step rls ips
        ((List.range N).foldl (stitchSector rls ips) ([], 0)) N
        hips hne hmono minLen hminLen hstartN
    rw [hfold, hstep]
    refine ⟨?_, ?_, ?_, ?_⟩
    · show timesMono
        (((List.range N).foldl (stitchSector rls ips) ([], 0)).1 ++ newFs)
      apply timesMono_append _ _ ia hnewmono
      intro i hi j hj
      have haccne :
          ((List.range N).foldl (stitchSector rls ips) ([], 0)).1 ≠ [] := by
        intro h
        rw [h] at hi
        simp at hi
      have hlast := List.getLast?_eq_getLast _ haccne
      have hfle := ib _ hlast
      have hft := timeAt_getLast? _ _ hlast
      have hm := ia i
        ((((List.range N).foldl (stitchSector rls ips) ([], 0)).1).length - 1)
        (by omega) (by omega)
      have hg := hnewge j hj
      have h0j := hnew0
      linarith
    · intro f hf
      show f.time ≤ ((List.range N).foldl (stitchSector rls ips) ([], 0)).2 + bt
      rw [show (((List.range N).foldl (stitchSector rls ips) ([], 0)).1 ++
          newFs, ((List.range N).foldl (stitchSector rls ips) ([], 0)).2 +
          bt).1 = ((List.range N).foldl (stitchSector rls ips) ([], 0)).1 ++
          newFs from rfl, List.getLast?_append] at hf
      have hg := List.getLast?_eq_getLast newFs hnewne
      rw [hg] at hf
      simp only [Option.or_some] at hf
      obtain rfl := Option.some.inj hf
      have hft := timeAt_getLast? newFs _ hg
      have hlt := hnewle (newFs.length - 1)
        (by have := List.length_pos.mpr hnewne; omega)
      linarith
    · intro f hf
      rw [show (((List.range N).foldl (stitchSector rls ips) ([], 0)).1 ++
          newFs, ((List.range N).foldl (stitchSector rls ips) ([], 0)).2 +
          bt).1 = ((List.range N).foldl (stitchSector rls ips) ([], 0)).1 ++
          newFs from rfl, List.head?_append] at hf
      by_cases hacc :
          ((List.range N).foldl (stitchSector rls ips) ([], 0)).1 = []
      · rw [hacc] at hf
        simp only [List.head?_nil, Option.none_or] at hf
        have hft := timeAt_head? newFs _ hf
        rw [hft, hnew0, id hacc]
      · have hh := List.head?_eq_head hacc
        rw [hh] at hf
        simp only [Option.or_some] at hf
        obtain rfl := Option.some.inj hf
        exact ic _ hh
    · intro h
      exfalso
      have h' := List.append_eq_nil.mp h
      exact hnewne h'.2

/-- For every lap in the resampled set, the accumulated ideal time after
`N` sectors is at most that lap's elapsed time to sample `N * ips`
(clamped to its last sample). -/
theorem idealStitch_time_bound (rls : List LapData) (ips : ℕ)
    (hips : 1 ≤ ips) (hne : rls ≠ [])
    (hmono : ∀ rl ∈ rls, timesMono rl.frames)
    (minLen : ℕ) (hminLen : ∀ rl ∈ rls, minLen ≤ rl.frames.length)
    (numSectors : ℕ) (hns : numSectors * ips ≤ minLen)
    (rl : LapData) (hrl : rl ∈ rls) :
    ∀ N, N ≤ numSectors →
      ((List.range N).foldl (stitchSector rls ips) ([], 0)).2 ≤
        timeAt rl.frames (min (N * ips) (rl.frames.length - 1)) -
          timeAt rl.frames 0 := by
  have hmonorl := hmono rl hrl
  have hminrl := hminLen rl hrl
  intro N
  induction N with
  | zero =>
    intro _
    simp
  | succ N ih =>
    intro hN1
    have hb := ih (by omega)
    have hfold : (List.range (N + 1)).foldl (stitchSector rls ips) ([], 0) =
        stitchSector rls ips
          ((List.range N).foldl (stitchSector rls ips) ([], 0)) N := by
      rw [List.range_succ, List.foldl_append, List.foldl_cons, List.foldl_nil]
    have hsm : (N + 1) * ips = N * ips + ips := Nat.succ_mul N ips
    have hstartN : N * ips + ips ≤ minLen := by
      have h1 : (N + 1) * ips ≤ numSectors * ips :=
        Nat.mul_le_mul_right ips hN1
      omega
    obtain ⟨bt, newFs, hstep, _, _, _, _, _, hball⟩ :=
      stitchSector_step rls ips
        ((List.range N).foldl (stitchSector rls ips) ([], 0)) N
        hips hne hmono minLen hminLen hstartN
    rw [hfold, hstep, hsm]
    show ((List.range N).foldl (stitchSector rls ips) ([], 0)).2 + bt ≤ _
    have h1 := hball rl hrl
    have h4 : sectorTimeOf rl (N * ips) (N * ips + ips) =
        timeAt rl.frames (min (N * ips + ips) (rl.frames.length - 1)) -
          timeAt rl.frames (N * ips) := rfl
    rw [h4] at h1
    have h2 : timeAt rl.frames (min (N * ips) (rl.frames.length - 1)) ≤
        timeAt rl.frames (N * ips) :=
      hmonorl _ _ (by omega) (by omega)
    linarith

/-- The `resampledLaps` local of `calculateIdealLap`. -/
def idealResampled (dist : DistFn) (laps : List LapData) : List LapData :=
  (laps.filter (·.isComplete)).map (fun l => resampleLap dist l 5)

/-- The `minLen` local of `calculateIdealLap`. -/
def idealMinLen (dist : DistFn) (laps : List LapData) : ℕ :=
  ((idealResampled dist laps).map (·.frames.length)).min?.getD 0

/-- The `indicesPerSector` local of `calculateIdealLap`. -/
def idealIps (microSectorSize : ℚ) : ℕ :=
  (⌊microSectorSize / 5⌋).toNat

/-- The `numSectors` local of `calculateIdealLap`. -/
def idealNumSectors (dist : DistFn) (laps : List LapData)
    (microSectorSize : ℚ) : ℕ :=
  idealMinLen dist laps / idealIps microSectorSize

/-- The stitched frames and total time of `calculateIdealLap`'s loop. -/
def idealBuild (dist : DistFn) (laps : List LapData)
    (microSectorSize : ℚ) : List TelemetryFrame × ℚ :=
  (List.range (idealNumSectors dist laps microSectorSize)).foldl
    (stitchSector (idealResampled dist laps) (idealIps microSectorSize))
    ([], 0)

theorem calculateIdealLap_eq (dist : DistFn) (laps : List LapData)
    (microSectorSize : ℚ)
    (h2 : ¬ ((laps.filter (·.isComplete)).length < 2)) :
    calculateIdealLap dist laps microSectorSize =
      some { lapIndex := -1,
             frames := (idealBuild dist laps microSectorSize).1,
             totalDistance :=
               ((idealBuild dist laps microSectorSize).1.length : ℚ) * 5,
             lapTime := (idealBuild dist laps microSectorSize).2,
             isComplete := true } := by
  unfold calculateIdealLap idealBuild idealNumSectors idealMinLen idealIps
    idealResampled
  rw [if_neg h2]

theorem idealResampled_ne_nil (dist : DistFn) (laps : List LapData)
    (h2 : ¬ ((laps.filter (·.isComplete)).length < 2)) :
    idealResampled dist laps ≠ [] := by
  unfold idealResampled
  intro h
  rw [List.map_eq_nil_iff] at h
  rw [h] at h2
  simp at h2

theorem idealResampled_mono (dist : DistFn) (laps : List LapData)
    (hd : ∀ a b c e, 0 ≤ dist a b c e)
    (hts : ∀ l ∈ laps, l.isComplete = true → timesMono l.frames) :
    ∀ rl ∈ idealResampled dist laps, timesMono rl.frames := by
  intro rl hrl
  obtain ⟨l, hlf, rfl⟩ := List.mem_map.mp hrl
  obtain ⟨hl, hcomp⟩ := List.mem_filter.mp hlf
  exact (resampleLap_time_spec dist l 5 hd (hts l hl hcomp)
    (by norm_num)).1

theorem idealMinLen_le (dist : DistFn) (laps : List LapData) :
    ∀ rl ∈ idealResampled dist laps,
      idealMinLen dist laps ≤ rl.frames.length := by
  intro rl hrl
  unfold idealMinLen
  rcases hmin : ((idealResampled dist laps).map (·.frames.length)).min?
      with _ | m
  · rw [List.min?_eq_none_iff, List.map_eq_nil_iff] at hmin
    rw [hmin] at hrl
    simp at hrl
  · rw [hmin, Option.getD_some]
    exact natMin?_le hmin _ (List.mem_map_of_mem _ hrl)

/-- **C4.**  With the Haversine distance's nonnegativity and every input
complete lap's frame times non-decreasing, every `IdealLap` produced by
`calculateIdealLap` (at the program's micro-sector size `50`) has a
non-decreasing frame-time sequence — in particular no decrease at
micro-sector stitching boundaries — and its first frame's time is `0`. -/
theorem c4_ideal_times_monotone (dist : DistFn) (laps : List LapData)
    (ideal : LapData)
    (hd : ∀ a b c e, 0 ≤ dist a b c e)
    (hts : ∀ l ∈ laps, l.isComplete = true → timesMono l.frames)
    (heq : calculateIdealLap dist laps 50 = some ideal) :
    timesMono ideal.frames ∧
    (∀ f, ideal.frames.head? = some f → f.time = 0) := by
  by_cases h2 : (laps.filter (·.isComplete)).length < 2
  · unfold calculateIdealLap at heq
    rw [if_pos h2] at heq
    simp at heq
  · rw [calculateIdealLap_eq dist laps 50 h2] at heq
    obtain rfl := Option.some.inj heq
    have hinv := idealStitch_invariant (idealResampled dist laps)
      (idealIps 50) (by norm_num [idealIps])
      (idealResampled_ne_nil dist laps h2)
      (idealResampled_mono dist laps hd hts)
      (idealMinLen dist laps) (idealMinLen_le dist laps)
      (idealNumSectors dist laps 50)
      (Nat.div_mul_le_self _ _)
      (idealNumSectors dist laps 50) (le_refl _)
    exact ⟨hinv.1, hinv.2.2.1⟩

/-- A complete two-frame lap at a single coordinate, used to run
`c4_ideal_times_monotone` on a concrete input. -/
def c4lap : LapData :=
  ⟨1, [⟨0, 1, 1⟩, ⟨1, 1, 1⟩], 50, 60, true⟩

/-- Witness for `c4_ideal_times_monotone` on two copies of `c4lap`. -/
theorem c4_ideal_times_monotone_witness :
    timesMono ((calculateIdealLap zeroDist [c4lap, c4lap] 50).getD
      default).frames ∧
    (∀ f, ((calculateIdealLap zeroDist [c4lap, c4lap] 50).getD
      default).frames.head? = some f → f.time = 0) := by
  obtain ⟨x, hx⟩ : ∃ x, calculateIdealLap zeroDist [c4lap, c4lap] 50 =
      some x :=
    ⟨_, calculateIdealLap_eq zeroDist [c4lap, c4lap] 50 (by simp [c4lap])⟩
  rw [hx]
  exact c4_ideal_times_monotone zeroDist [c4lap, c4lap] x
    (by intro a b c e; norm_num [zeroDist])
    (by
      intro l hl _
      rcases List.mem_cons.mp hl with hl | hl
      · subst hl
        intro i j hij hj
        simp only [c4lap, List.length_cons, List.length_nil] at hj
        interval_cases j <;> interval_cases i <;> norm_num [timeAt, c4lap]
      · simp only [List.mem_singleton] at hl
        subst hl
        intro i j hij hj
        simp only [c4lap, List.length_cons, List.length_nil] at hj
        interval_cases j <;> interval_cases i <;> norm_num [timeAt, c4lap])
    hx

/-- A complete lap whose `lapTime` field (`-5`) is smaller than any time
its frames realize: the `lapTime` field of a `LapData` value is not tied
to its frames, so the ideal lap's time (`0` here) can exceed the minimum
input `lapTime`. -/
def c2neg : LapData :=
  ⟨1, [⟨0, 1, 1⟩, ⟨1, 1, 1⟩], 0, -5, true⟩

/-- Counterexample to **C2** as stated: two complete laps with
`lapTime = -5` yield an ideal lap with `lapTime = 0 > -5`; nothing in
`calculateIdealLap` reads the input `lapTime` fields, so the claimed
bound cannot hold for arbitrary lap lists. -/
theorem c2_ideal_counterexample :
    calculateIdealLap zeroDist [c2neg, c2neg] 50 =
      some ⟨-1, [], 0, 0, true⟩ ∧
    c2neg.isComplete = true ∧
    c2neg.lapTime <
      (⟨-1, ([] : List TelemetryFrame), 0, 0, true⟩ : LapData).lapTime := by
  refine ⟨?_, rfl, by norm_num [c2neg]⟩
  norm_num [calculateIdealLap, c2neg, resampleLap, distMap, distMapAux,
    gridPoints, interpFrame, interpIdx, interpRatio, qAt, frameAt, lerp,
    zeroDist, List.findIdx?, List.min?, stitchSector]
  decide

/-- **C2** (amended).  For laps whose bookkeeping fields are consistent
with their frames — each complete lap has non-decreasing frame times, its
frame-time span bounded by its `lapTime` field, and its `totalDistance`
field bounded by its frames' cumulative Haversine distance (all of which
hold for `detectLaps` output) — the `lapTime` of the `IdealLap` returned
by `calculateIdealLap` is at most every complete input lap's `lapTime`,
hence at most their minimum. -/
theorem c2_ideal_time_bound (dist : DistFn) (laps : List LapData)
    (ideal : LapData)
    (hd : ∀ a b c e, 0 ≤ dist a b c e)
    (hwf : ∀ l ∈ laps, l.isComplete = true →
      timesMono l.frames ∧
      timeAt l.frames (l.frames.length - 1) - timeAt l.frames 0 ≤
        l.lapTime ∧
      l.totalDistance ≤ lapDistance dist l.frames)
    (heq : calculateIdealLap dist laps 50 = some ideal) :
    ∀ l ∈ laps, l.isComplete = true → ideal.lapTime ≤ l.lapTime := by
  intro l hl hcomp
  by_cases h2 : (laps.filter (·.isComplete)).length < 2
  · unfold calculateIdealLap at heq
    rw [if_pos h2] at heq
    simp at heq
  · rw [calculateIdealLap_eq dist laps 50 h2] at heq
    obtain rfl := Option.some.inj heq
    show (idealBuild dist laps 50).2 ≤ l.lapTime
    obtain ⟨htl, hspan, htot⟩ := hwf l hl hcomp
    have hlc : l ∈ laps.filter (·.isComplete) :=
      List.mem_filter.mpr ⟨hl, hcomp⟩
    have hrl : resampleLap dist l 5 ∈ idealResampled dist laps :=
      List.mem_map_of_mem _ hlc
    obtain ⟨hrmono, hr0, hrle⟩ :=
      resampleLap_time_spec dist l 5 hd htl (by norm_num)
    have hT := idealStitch_time_bound (idealResampled dist laps)
      (idealIps 50) (by norm_num [idealIps])
      (idealResampled_ne_nil dist laps h2)
      (idealResampled_mono dist laps hd
        (fun l' hl' hc' => (hwf l' hl' hc').1))
      (idealMinLen dist laps) (idealMinLen_le dist laps)
      (idealNumSectors dist laps 50) (Nat.div_mul_le_self _ _)
      (resampleLap dist l 5) hrl
      (idealNumSectors dist laps 50) (le_refl _)
    unfold idealBuild
    have hsp0 : 0 ≤ timeAt l.frames (l.frames.length - 1) -
        timeAt l.frames 0 := by
      rcases Nat.eq_zero_or_pos l.frames.length with hz | hp
      · rw [List.length_eq_zero] at hz
        simp [hz, timeAt]
      · have := htl 0 (l.frames.length - 1) (by omega) (by omega)
        linarith
    by_cases hrne : (resampleLap dist l 5).frames = []
    · rw [hrne] at hT
      simp [timeAt] at hT
      linarith
    · have hrlen : 0 < (resampleLap dist l 5).frames.length :=
        List.length_pos.mpr hrne
      have hm1 : timeAt (resampleLap dist l 5).frames
          (min (idealNumSectors dist laps 50 * idealIps 50)
            ((resampleLap dist l 5).frames.length - 1)) ≤
          timeAt (resampleLap dist l 5).frames
            ((resampleLap dist l 5).frames.length - 1) :=
        hrmono _ _ (Nat.min_le_right _ _) (by omega)
      have hm2 := hrle htot ((resampleLap dist l 5).frames.length - 1)
        (by omega)
      have hm3 := hr0 hrne
      linarith

/-- A complete lap whose bookkeeping fields are consistent with its
frames, used to run `c2_ideal_time_bound` on a concrete input. -/
def c2good : LapData :=
  ⟨1, [⟨0, 1, 1⟩, ⟨1, 1, 1⟩], 0, 60, true⟩

/-- Witness for `c2_ideal_time_bound` on two copies of `c2good`. -/
theorem c2_ideal_time_bound_witness :
    ((calculateIdealLap zeroDist [c2good, c2good] 50).getD
      default).lapTime ≤ c2good.lapTime := by
  obtain ⟨x, hx⟩ : ∃ x, calculateIdealLap zeroDist [c2good, c2good] 50 =
      some x :=
    ⟨_, calculateIdealLap_eq zeroDist [c2good, c2good] 50
      (by simp [c2good])⟩
  rw [hx]
  refine c2_ideal_time_bound zeroDist [c2good, c2good] x
    (by intro a b c e; norm_num [zeroDist]) ?_ hx c2good (by simp) rfl
  intro l hl _
  have hcases : l = c2good := by
    rcases List.mem_cons.mp hl with h | h
    · exact h
    · simpa using h
  subst hcases
  refine ⟨?_, ?_, ?_⟩
  · intro i j hij hj
    simp only [c2good, List.length_cons, List.length_nil] at hj
    interval_cases j <;> interval_cases i <;> norm_num [timeAt, c2good]
  · norm_num [timeAt, c2good]
  · norm_num [lapDistance, zeroDist, c2good]

end Replay
